import Mathlib

/- Verification of the md2adf-converter repository: a shallow embedding of
   the ADF data model (src/adf/adf.go), the markdown → ADF builder
   (src/md2adf/md2adf_translator.go) and the ADF → markdown renderer
   (src/adf2md/adf2md_translator.go), with theorems about the documented
   translation properties.

   Conventions of the embedding:
   - Go strings and byte buffers are modeled as `List Char` (the inputs of
     interest are ASCII, where Go bytes and runes coincide);
   - Go maps are modeled as association lists in insertion order;
   - Go `any` attribute values are modeled by the inductive `GoVal`
     (`vInt` for Go `int`, `vFloat` for JSON-decoded `float64` carrying an
     integral value, which is the only kind of float the repository
     produces);
   - a Go panic (out-of-range index, failed type assertion) is modeled by
     returning `none`. -/

namespace MdAdf

abbrev Str := List Char

def str (s : String) : Str := s.toList

/- unicode.IsSpace restricted to ASCII whitespace (the only whitespace the
   repository's inputs contain). -/
def goIsSpace (c : Char) : Bool :=
  c = ' ' || c = '\t' || c = '\n' || c = '\x0b' || c = '\x0c' || c = '\r'

/- strings.TrimSpace -/
def goTrimSpace (s : Str) : Str :=
  ((s.dropWhile goIsSpace).reverse.dropWhile goIsSpace).reverse

/- strings.TrimRight with a one-character cutset. -/
def goTrimRightChar (s : Str) (c : Char) : Str :=
  (s.reverse.dropWhile (· = c)).reverse

/- strings.Trim with a one-character cutset (used for backtick stripping). -/
def goTrimChar (s : Str) (c : Char) : Str :=
  ((s.dropWhile (· = c)).reverse.dropWhile (· = c)).reverse

/- strings.HasPrefix pat s (pattern given first). -/
def listStartsWith : Str → Str → Bool
  | [], _ => true
  | _ :: _, [] => false
  | p :: ps, c :: cs => p = c && listStartsWith ps cs

/- strings.HasSuffix pat s (pattern given first). -/
def listEndsWith (pat s : Str) : Bool :=
  listStartsWith pat.reverse s.reverse

/- strings.TrimSuffix -/
def goTrimSuffix (s pat : Str) : Str :=
  if listEndsWith pat s then s.take (s.length - pat.length) else s

/- strings.TrimPrefix (drops one leading copy of pat when present). -/
def goDropLeading (s pat : Str) : Str :=
  if listStartsWith pat s then s.drop pat.length else s

/- strings.Contains s pat (pattern given first). -/
def listHasInfix : Str → Str → Bool
  | pat, [] => listStartsWith pat []
  | pat, c :: cs => listStartsWith pat (c :: cs) || listHasInfix pat cs

/- Matching prefix removal: `some rest` when pat is a prefix of s. -/
def stripPre : Str → Str → Option Str
  | [], s => some s
  | _ :: _, [] => none
  | p :: ps, c :: cs => if p = c then stripPre ps cs else none

/- The scanning loop of strings.Replace with a nonempty pattern: replaces
   non-overlapping occurrences left to right.  The fuel argument counts
   characters still allowed to be consumed; every step consumes at least
   one character, so fuel `s.length` makes the fuel-out branch unreachable
   and the function agrees with Go's loop. -/
def goReplaceGo (pat nw : Str) : Nat → Str → Str
  | 0, s => s
  | _ + 1, [] => []
  | fuel + 1, c :: cs =>
    match stripPre pat (c :: cs) with
    | some rest => nw ++ goReplaceGo pat nw fuel rest
    | none => c :: goReplaceGo pat nw fuel cs

/- strings.ReplaceAll.  For the empty pattern Go inserts the replacement
   before every rune and once at the end. -/
def goReplaceAll (s old nw : Str) : Str :=
  match old with
  | [] => nw ++ s.flatMap (fun c => c :: nw)
  | o :: os => goReplaceGo (o :: os) nw s.length s

/- fmt.Sscanf with a single %d verb: skip leading spaces, optional sign,
   then a nonempty run of digits (trailing input is ignored). -/
def digitsVal (ds : Str) : Int :=
  ds.foldl (fun a c => a * 10 + (c.toNat - '0'.toNat : Int)) 0

def goSscanfInt (s : Str) : Option Int :=
  let t := s.dropWhile goIsSpace
  match t with
  | '-' :: r =>
    let ds := r.takeWhile Char.isDigit
    if ds.isEmpty then none else some (-(digitsVal ds))
  | '+' :: r =>
    let ds := r.takeWhile Char.isDigit
    if ds.isEmpty then none else some (digitsVal ds)
  | _ =>
    let ds := t.takeWhile Char.isDigit
    if ds.isEmpty then none else some (digitsVal ds)

/- Byte-range extraction content[s:e] (total; well-formed uses have
   s ≤ e ≤ content.length). -/
def extractSeg (buf : Str) (s e : Nat) : Str :=
  (buf.drop s).take (e - s)

/- ********************  ADF data model (src/adf/adf.go)  ******************* -/

/- Attribute values (Go `any`). -/
inductive GoVal where
  | vStr (s : Str)
  | vInt (n : Int)
  | vFloat (n : Int)
  | vBool (b : Bool)
deriving DecidableEq, Repr

structure ADFMark where
  typ : Str
  attrs : List (Str × GoVal)
deriving DecidableEq, Repr

inductive ADFNode where
  | mk (typ : Str) (content : List ADFNode) (text : Str)
       (marks : List ADFMark) (attrs : List (Str × GoVal))

def ADFNode.typ : ADFNode → Str
  | .mk t _ _ _ _ => t
def ADFNode.content : ADFNode → List ADFNode
  | .mk _ c _ _ _ => c
def ADFNode.text : ADFNode → Str
  | .mk _ _ tx _ _ => tx
def ADFNode.marks : ADFNode → List ADFMark
  | .mk _ _ _ m _ => m
def ADFNode.attrs : ADFNode → List (Str × GoVal)
  | .mk _ _ _ _ a => a

structure ADFDocument where
  version : Int
  typ : Str
  content : List ADFNode

/- ParentNodes (adf.go). -/
def ParentNodes : List Str :=
  [str "blockquote", str "bulletList", str "codeBlock", str "heading",
   str "orderedList", str "panel", str "paragraph", str "table", str "media"]

/- ChildNodes (adf.go). -/
def ChildNodes : List Str :=
  [str "text", str "listItem", str "tableRow", str "tableHeader",
   str "tableCell"]

def IsParentNode (t : Str) : Bool := ParentNodes.contains t

def IsChildNode (t : Str) : Bool := ChildNodes.contains t

/- GetADFNodeType returns "parent" / "child" / "unknown". -/
def GetADFNodeType (t : Str) : Str :=
  if IsParentNode t then str "parent"
  else if IsChildNode t then str "child"
  else str "unknown"

/- Constructors (adf.go). -/
def NewADFDocument : ADFDocument := ⟨1, str "doc", []⟩

def NewParagraphNode : ADFNode := .mk (str "paragraph") [] [] [] []

def NewTextNode (t : Str) : ADFNode := .mk (str "text") [] t [] []

def NewTextNodeWithMarks (t : Str) (ms : List ADFMark) : ADFNode :=
  .mk (str "text") [] t ms []

def NewHeadingNode (level : Int) : ADFNode :=
  .mk (str "heading") [] [] [] [(str "level", .vInt level)]

def NewLinkMark (href : Str) : ADFMark :=
  ⟨str "link", [(str "href", .vStr href)]⟩

def NewCodeMark : ADFMark := ⟨str "code", []⟩
def NewStrongMark : ADFMark := ⟨str "strong", []⟩
def NewUnderlineMark : ADFMark := ⟨str "underline", []⟩
def NewStrikethroughMark : ADFMark := ⟨str "strike", []⟩
def NewEmphasisMark : ADFMark := ⟨str "em", []⟩

def NewMentionNode (userID displayText : Str) : ADFNode :=
  .mk (str "mention") [] [] []
    [(str "id", .vStr userID), (str "text", .vStr displayText)]

def NewCodeBlockNode (language : Str) : ADFNode :=
  .mk (str "codeBlock") [] [] []
    (if language.isEmpty then [] else [(str "language", .vStr language)])

def NewBulletListNode : ADFNode := .mk (str "bulletList") [] [] [] []

def NewOrderedListNode (order : Int) : ADFNode :=
  .mk (str "orderedList") [] [] []
    (if order > 1 then [(str "order", .vInt order)] else [])

def NewListItemNode : ADFNode := .mk (str "listItem") [] [] [] []

def NewPanelNode (panelType : Str) : ADFNode :=
  .mk (str "panel") [] [] [] [(str "panelType", .vStr panelType)]

/- Table node constructors are referenced by the builder
   (adf.NewTableNode and friends); their definitions are not under src/.
   Modelled from the spec: "a table node defaults to empty-attrs plus
   'not numbered'/'align-start' layout attributes", and the repository's
   table test checks isNumberColumnEnabled = false and
   layout = "align-start". -/
def NewTableNode : ADFNode :=
  .mk (str "table") [] [] []
    [(str "isNumberColumnEnabled", .vBool false),
     (str "layout", .vStr (str "align-start"))]

def NewTableRowNode : ADFNode := .mk (str "tableRow") [] [] [] []
def NewTableHeaderNode : ADFNode := .mk (str "tableHeader") [] [] [] []
def NewTableCellNode : ADFNode := .mk (str "tableCell") [] [] [] []

/- ************  global text substitution (ADFNode.ReplaceAll)  ************ -/

/- ADFNode.replace (adf.go): children first, then rewrite this node's text
   when it is a text node.  The Go method mutates in place; the model
   returns the rewritten node. -/
mutual
def ADFNode.replaceGo : ADFNode → Str → Str → ADFNode
  | .mk t cs tx mks ats, old, nw =>
    let cs' := ADFNode.replaceGoL cs old nw
    if t = str "text" then .mk t cs' (goReplaceAll tx old nw) mks ats
    else .mk t cs' tx mks ats
def ADFNode.replaceGoL : List ADFNode → Str → Str → List ADFNode
  | [], _, _ => []
  | c :: cs, old, nw =>
    ADFNode.replaceGo c old nw :: ADFNode.replaceGoL cs old nw
end

/- ADFNode.ReplaceAll (adf.go): runs `replace` on every element of
   n.Content; the receiver node itself is never rewritten (the early
   return for an empty content list has the same net effect as the
   general path, so it needs no separate case). -/
def ADFNode.ReplaceAllGo : ADFNode → Str → Str → ADFNode
  | .mk t cs tx mks ats, old, nw =>
    .mk t (ADFNode.replaceGoL cs old nw) tx mks ats

/- Claim-side definition, following the spec's words ("walks the whole
   tree depth-first and rewrites every text-node's literal text, leaving
   structure and marks untouched"): rewrite *every* text node of the tree,
   the root included. -/
mutual
def specRewriteTexts (f : Str → Str) : ADFNode → ADFNode
  | .mk t cs tx mks ats =>
    .mk t (specRewriteTextsL f cs) (if t = str "text" then f tx else tx)
      mks ats
def specRewriteTextsL (f : Str → Str) : List ADFNode → List ADFNode
  | [] => []
  | c :: cs => specRewriteTexts f c :: specRewriteTextsL f cs
end

/- replace agrees with the spec-side rewrite on every node. -/
mutual
theorem replaceGo_eq_spec (old nw : Str) :
    ∀ n : ADFNode,
      ADFNode.replaceGo n old nw =
        specRewriteTexts (fun s => goReplaceAll s old nw) n
  | .mk t cs tx mks ats => by
    have hl := replaceGoL_eq_spec old nw cs
    simp only [ADFNode.replaceGo, specRewriteTexts, hl]
    by_cases h : t = str "text" <;> simp [h]
theorem replaceGoL_eq_spec (old nw : Str) :
    ∀ ns : List ADFNode,
      ADFNode.replaceGoL ns old nw =
        specRewriteTextsL (fun s => goReplaceAll s old nw) ns
  | [] => rfl
  | c :: cs => by
    have h1 := replaceGo_eq_spec old nw c
    have h2 := replaceGoL_eq_spec old nw cs
    simp only [ADFNode.replaceGoL, specRewriteTextsL, h1, h2]
end

/- *********  compatibility check (md2adf_translator.go, CheckSafeForV2)  ******** -/

/- The unsafe node-type set of CheckSafeForV2. -/
def unsafeTypes : List Str :=
  [str "panel", str "media", str "mediaGroup", str "mediaSingle",
   str "inlineCard", str "emoji", str "mention", str "hardBreak",
   str "underline"]

def isUnsafe (t : Str) : Bool := unsafeTypes.contains t

/- One step of the "add to found list if not already present" logic that
   traverseADFNode applies to a node type or a mark type. -/
def addFound (found : List Str) (t : Str) : List Str :=
  if isUnsafe t then
    (if found.contains t then found else found ++ [t])
  else found

/- traverseADFNode (md2adf_translator.go): check the node's type, then its
   marks' types, then recurse into the children, accumulating the found
   unsafe types in first-occurrence order. -/
mutual
def traverseADFNode : ADFNode → List Str → List Str
  | .mk t cs _ mks _, found =>
    let f1 := addFound found t
    let f2 := mks.foldl (fun acc m => addFound acc m.typ) f1
    traverseADFNodeL cs f2
def traverseADFNodeL : List ADFNode → List Str → List Str
  | [], found => found
  | c :: cs, found => traverseADFNodeL cs (traverseADFNode c found)
end

/- traverseADFTree (md2adf_translator.go). -/
def traverseADFTree (d : ADFDocument) : List Str :=
  traverseADFNodeL d.content []

/- CheckSafeForV2, after the markdown has been built into an ADF document:
   it reports failure (an error listing the found types) exactly when the
   collected list is nonempty. -/
def checkSafeForV2Doc (d : ADFDocument) : Bool :=
  (traverseADFTree d).isEmpty

/- Claim-side occurrence predicate: the type occurs as a node type or as a
   mark type somewhere in the tree. -/
mutual
def occursType (t : Str) : ADFNode → Bool
  | .mk t' cs _ mks _ =>
    t' = t || mks.any (fun m => m.typ = t) || occursTypeL t cs
def occursTypeL (t : Str) : List ADFNode → Bool
  | [] => false
  | c :: cs => occursType t c || occursTypeL t cs
end

def docOccurs (d : ADFDocument) (t : Str) : Bool :=
  occursTypeL t d.content

theorem mem_addFound (found : List Str) (t u : Str) :
    u ∈ addFound found t ↔ u ∈ found ∨ (u = t ∧ isUnsafe t) := by
  unfold addFound
  by_cases h1 : isUnsafe t = true
  · rw [if_pos h1]
    by_cases h2 : found.contains t = true
    · rw [if_pos h2]
      have h2' : t ∈ found := List.elem_iff.1 h2
      constructor
      · exact Or.inl
      · rintro (h | ⟨rfl, _⟩)
        · exact h
        · exact h2'
    · rw [if_neg h2]
      simp only [List.mem_append, List.mem_singleton]
      constructor
      · rintro (h | rfl)
        · exact Or.inl h
        · exact Or.inr ⟨rfl, h1⟩
      · rintro (h | ⟨rfl, _⟩)
        · exact Or.inl h
        · exact Or.inr rfl
  · rw [if_neg h1]
    constructor
    · exact Or.inl
    · rintro (h | ⟨rfl, h⟩)
      · exact h
      · exact absurd h h1

theorem nodup_addFound (found : List Str) (t : Str) (h : found.Nodup) :
    (addFound found t).Nodup := by
  unfold addFound
  by_cases h1 : isUnsafe t = true
  · rw [if_pos h1]
    by_cases h2 : found.contains t = true
    · rw [if_pos h2]; exact h
    · rw [if_neg h2]
      have h2' : t ∉ found := fun hh => h2 (List.elem_iff.2 hh)
      refine List.Nodup.append h (List.nodup_singleton t) ?_
      intro a ha hb
      simp only [List.mem_singleton] at hb
      exact h2' (hb ▸ ha)
  · rw [if_neg h1]; exact h

theorem mem_marksFold (mks : List ADFMark) (found : List Str) (u : Str) :
    u ∈ mks.foldl (fun acc m => addFound acc m.typ) found ↔
      u ∈ found ∨ ∃ m ∈ mks, u = m.typ ∧ isUnsafe m.typ := by
  induction mks generalizing found with
  | nil => simp
  | cons m ms ih =>
    simp only [List.foldl_cons, ih, mem_addFound]
    constructor
    · rintro ((h | h) | ⟨m', hm', h⟩)
      · exact Or.inl h
      · exact Or.inr ⟨m, by simp, h⟩
      · exact Or.inr ⟨m', by simp [hm'], h⟩
    · rintro (h | ⟨m', hm', h⟩)
      · exact Or.inl (Or.inl h)
      · rcases List.mem_cons.1 hm' with rfl | hm''
        · exact Or.inl (Or.inr h)
        · exact Or.inr ⟨m', hm'', h⟩

theorem nodup_marksFold (mks : List ADFMark) (found : List Str)
    (h : found.Nodup) :
    (mks.foldl (fun acc m => addFound acc m.typ) found).Nodup := by
  induction mks generalizing found with
  | nil => simpa
  | cons m ms ih => exact ih _ (nodup_addFound _ _ h)

/- Characterization of the traversal: a type is collected iff it was
   already collected or it is an unsafe type occurring in the tree;
   and the collected list never contains duplicates. -/
mutual
theorem mem_traverseADFNode :
    ∀ (n : ADFNode) (found : List Str) (u : Str),
      u ∈ traverseADFNode n found ↔
        u ∈ found ∨ (isUnsafe u ∧ occursType u n)
  | .mk t cs tx mks ats, found, u => by
    have hl := mem_traverseADFNodeL cs
        (mks.foldl (fun acc m => addFound acc m.typ) (addFound found t)) u
    simp only [traverseADFNode, occursType, hl, mem_marksFold, mem_addFound]
    constructor
    · rintro (((h | ⟨rfl, hu⟩) | ⟨m, hm, rfl, hu⟩) | ⟨hu, h⟩)
      · exact Or.inl h
      · exact Or.inr ⟨hu, by simp⟩
      · exact Or.inr ⟨hu, by simp; exact Or.inl (Or.inr ⟨m, hm, rfl⟩)⟩
      · exact Or.inr ⟨hu, by simp [h]⟩
    · rintro (h | ⟨hu, h⟩)
      · exact Or.inl (Or.inl (Or.inl h))
      · simp at h
        rcases h with (rfl | ⟨m, hm, rfl⟩) | h
        · exact Or.inl (Or.inl (Or.inr ⟨rfl, hu⟩))
        · exact Or.inl (Or.inr ⟨m, hm, rfl, hu⟩)
        · exact Or.inr ⟨hu, h⟩
theorem mem_traverseADFNodeL :
    ∀ (ns : List ADFNode) (found : List Str) (u : Str),
      u ∈ traverseADFNodeL ns found ↔
        u ∈ found ∨ (isUnsafe u ∧ occursTypeL u ns)
  | [], found, u => by simp [traverseADFNodeL, occursTypeL]
  | c :: cs, found, u => by
    have h1 := mem_traverseADFNode c found u
    have h2 := mem_traverseADFNodeL cs (traverseADFNode c found) u
    simp only [traverseADFNodeL, occursTypeL, h2, h1]
    constructor
    · rintro ((h | ⟨hu, h⟩) | ⟨hu, h⟩)
      · exact Or.inl h
      · exact Or.inr ⟨hu, by simp [h]⟩
      · exact Or.inr ⟨hu, by simp [h]⟩
    · rintro (h | ⟨hu, h⟩)
      · exact Or.inl (Or.inl h)
      · simp at h
        rcases h with h | h
        · exact Or.inl (Or.inr ⟨hu, h⟩)
        · exact Or.inr ⟨hu, h⟩
end

mutual
theorem nodup_traverseADFNode :
    ∀ (n : ADFNode) (found : List Str),
      found.Nodup → (traverseADFNode n found).Nodup
  | .mk t cs tx mks ats, found, h => by
    simp only [traverseADFNode]
    exact nodup_traverseADFNodeL cs _
      (nodup_marksFold _ _ (nodup_addFound _ _ h))
theorem nodup_traverseADFNodeL :
    ∀ (ns : List ADFNode) (found : List Str),
      found.Nodup → (traverseADFNodeL ns found).Nodup
  | [], found, h => h
  | c :: cs, found, h => by
    simp only [traverseADFNodeL]
    exact nodup_traverseADFNodeL cs _ (nodup_traverseADFNode c found h)
end

theorem specRewriteTextsL_eq_map (f : Str → Str) :
    ∀ ns : List ADFNode, specRewriteTextsL f ns = ns.map (specRewriteTexts f)
  | [] => rfl
  | c :: cs => by
    simp only [specRewriteTextsL, List.map_cons, specRewriteTextsL_eq_map f cs]

/-- C9 counterexample: the claim says ReplaceAll rewrites the literal text
of every text node in the whole tree, for every RDF node; but on a root
that is itself a text node the method returns without rewriting anything
(the walk starts at the root's children), so its result differs from the
rewrite-every-text-node function, and the root's text survives unchanged. -/
theorem c9_counterexample :
    ADFNode.ReplaceAllGo (NewTextNode (str "a")) (str "a") (str "b")
        ≠ specRewriteTexts (fun s => goReplaceAll s (str "a") (str "b"))
            (NewTextNode (str "a")) ∧
    (ADFNode.ReplaceAllGo (NewTextNode (str "a")) (str "a") (str "b")).text
        = str "a" := by
  constructor
  · intro h
    exact absurd (congrArg ADFNode.text h) (by decide)
  · rfl

/-- C9 (amended): for every RDF node and every search/replace pair,
ReplaceAll rewrites the literal text of every text node strictly below the
root by the Go string replacement and leaves everything else — the root's
own fields, and every descendant's kind, tree shape, marks and
attributes — unchanged. -/
theorem c9_replaceAll_rewrites_below_root (n : ADFNode) (old nw : Str) :
    ADFNode.ReplaceAllGo n old nw =
      .mk n.typ
        (n.content.map
          (specRewriteTexts (fun s => goReplaceAll s old nw)))
        n.text n.marks n.attrs := by
  cases n with
  | mk t cs tx mks ats =>
    simp only [ADFNode.ReplaceAllGo, ADFNode.typ, ADFNode.content,
      ADFNode.text, ADFNode.marks, ADFNode.attrs,
      replaceGoL_eq_spec, specRewriteTextsL_eq_map]

theorem mem_traverseADFTree (d : ADFDocument) (u : Str) :
    u ∈ traverseADFTree d ↔ isUnsafe u ∧ occursTypeL u d.content := by
  simpa using mem_traverseADFNodeL d.content [] u

/-- C5: for every ADF document that contains at least one panel node and at
least one underline mark and no other unsafe kind, the compatibility check
reports a failure whose collected unsafe-kind list is duplicate-free and
whose members are exactly panel and underline; and for documents
containing no unsafe kinds it reports success. -/
theorem c5_checkSafeForV2 :
    (∀ d : ADFDocument,
        docOccurs d (str "panel") = true →
        docOccurs d (str "underline") = true →
        (∀ t, isUnsafe t = true → docOccurs d t = true →
            t = str "panel" ∨ t = str "underline") →
        checkSafeForV2Doc d = false ∧
        (traverseADFTree d).Nodup ∧
        (∀ t, t ∈ traverseADFTree d ↔
            t = str "panel" ∨ t = str "underline")) ∧
    (∀ d : ADFDocument,
        (∀ t, isUnsafe t = true → docOccurs d t = false) →
        traverseADFTree d = [] ∧ checkSafeForV2Doc d = true) := by
  constructor
  · intro d hp hu honly
    have hmem : ∀ t, t ∈ traverseADFTree d ↔
        t = str "panel" ∨ t = str "underline" := by
      intro t
      rw [mem_traverseADFTree]
      constructor
      · rintro ⟨h1, h2⟩
        exact honly t h1 h2
      · rintro (rfl | rfl)
        · exact ⟨by decide, hp⟩
        · exact ⟨by decide, hu⟩
    refine ⟨?_, nodup_traverseADFNodeL d.content [] (by simp), hmem⟩
    have : str "panel" ∈ traverseADFTree d := (hmem _).2 (Or.inl rfl)
    unfold checkSafeForV2Doc
    cases hl : traverseADFTree d with
    | nil => rw [hl] at this; cases this
    | cons a l => simp [List.isEmpty]
  · intro d hsafe
    have hnil : traverseADFTree d = [] := by
      apply List.eq_nil_iff_forall_not_mem.2
      intro u hu
      rcases (mem_traverseADFTree d u).1 hu with ⟨h1, h2⟩
      have := hsafe u h1
      unfold docOccurs at this
      rw [this] at h2
      cases h2
    exact ⟨hnil, by simp [checkSafeForV2Doc, hnil]⟩

/- A concrete document with one panel and one underlined span. -/
def c5ExDoc : ADFDocument :=
  ⟨1, str "doc",
    [.mk (str "panel")
      [.mk (str "paragraph")
        [.mk (str "text") [] (str "x") [⟨str "underline", []⟩] []] [] [] []]
      [] [] [(str "panelType", .vStr (str "info"))]]⟩

/- A concrete document with no unsafe kinds. -/
def c5SafeDoc : ADFDocument :=
  ⟨1, str "doc",
    [.mk (str "paragraph") [.mk (str "text") [] (str "hi") [] []] [] [] []]⟩

/-- C5 witness: the general theorem applied at a concrete document holding
one panel and one underlined text span (and at a concrete safe document). -/
theorem c5_checkSafeForV2_witness :
    (checkSafeForV2Doc c5ExDoc = false ∧
      str "panel" ∈ traverseADFTree c5ExDoc ∧
      str "underline" ∈ traverseADFTree c5ExDoc ∧
      (traverseADFTree c5ExDoc).Nodup) ∧
    checkSafeForV2Doc c5SafeDoc = true := by
  constructor
  · have h := c5_checkSafeForV2.1 c5ExDoc (by decide) (by decide) ?honly
    case honly =>
      intro t ht hocc
      simp only [docOccurs, c5ExDoc, occursTypeL, occursType, List.any_nil,
        List.any_cons, Bool.or_false, Bool.false_or, Bool.or_eq_true,
        decide_eq_true_eq] at hocc
      rcases hocc with h1 | h1 | h1 | h1
      · exact Or.inl h1.symm
      · exact absurd (h1.symm ▸ ht) (by decide)
      · exact absurd (h1.symm ▸ ht) (by decide)
      · exact Or.inr h1.symm
    exact ⟨h.1, (h.2.2 _).2 (Or.inl rfl), (h.2.2 _).2 (Or.inr rfl), h.2.1⟩
  · have h := c5_checkSafeForV2.2 c5SafeDoc ?hsafe
    case hsafe =>
      intro t ht
      simp only [docOccurs, c5SafeDoc, occursTypeL, occursType, List.any_nil,
        Bool.or_false, Bool.false_or, Bool.or_eq_false_iff]
      constructor
      · rw [decide_eq_false_iff_not]
        intro hne
        exact absurd (hne ▸ ht) (by decide)
      · rw [decide_eq_false_iff_not]
        intro hne
        exact absurd (hne ▸ ht) (by decide)
    exact h.2

/- ********  CST interface (external tree-sitter parser, spec §6)  ******** -/

/- A node of the secondary inline tree: kind plus byte offsets into the
   inline node's own buffer (offsets are relative to that buffer). -/
inductive INode where
  | mk (kind : Str) (start stop : Nat) (children : List INode)

def INode.kind : INode → Str
  | .mk k _ _ _ => k
def INode.start : INode → Nat
  | .mk _ s _ _ => s
def INode.stop : INode → Nat
  | .mk _ _ e _ => e
def INode.children : INode → List INode
  | .mk _ _ _ c => c

/- A block-level CST node: kind, the source text of its byte span, and its
   ordered children.  A node of kind "inline" additionally carries the
   secondary inline tree the parser exposes for it (`none` models
   GetInlineTree returning nil). -/
inductive CstNode where
  | mk (kind : Str) (text : Str) (children : List CstNode)
       (itree : Option (List INode))

def CstNode.kind : CstNode → Str
  | .mk k _ _ _ => k
def CstNode.text : CstNode → Str
  | .mk _ t _ _ => t
def CstNode.children : CstNode → List CstNode
  | .mk _ _ c _ => c
def CstNode.itree : CstNode → Option (List INode)
  | .mk _ _ _ i => i

/- Builder configuration: the user-identity map and the round-trip
   registry (media id → node, inline-card url → node) harvested by a
   previous render. -/
structure BuildCfg where
  userMapping : List (Str × Str)
  mediaMapping : List (Str × ADFNode)
  inlineCardMapping : List (Str × ADFNode)

def emptyCfg : BuildCfg := ⟨[], [], []⟩

/- **********  text → ADF builder (src/md2adf/md2adf_translator.go)  ********** -/

/- The per-kind mark of extractTextContentWithMarks. -/
def markForKind (k : Str) : List ADFMark :=
  if k = str "strong_emphasis" then [NewStrongMark]
  else if k = str "underline" then [NewUnderlineMark]
  else if k = str "strikethrough" then [NewStrikethroughMark]
  else if k = str "emphasis" then [NewEmphasisMark]
  else []

def emphasisFamily : List Str :=
  [str "strong_emphasis", str "underline", str "strikethrough",
   str "emphasis"]

/- Delimiter bookkeeping of extractTextContentWithMarks: the Go loop
   counts "emphasis_delimiter" children and remembers the end of the
   (i+1)-st and the start of the (j+1)-st one (0 when never reached). -/
def delimsOf (cs : List INode) : List INode :=
  cs.filter (fun c => c.kind = str "emphasis_delimiter")

def delimEndAt (ds : List INode) (i : Nat) : Nat :=
  ((ds.get? i).map INode.stop).getD 0

def delimStartAt (ds : List INode) (i : Nat) : Nat :=
  ((ds.get? i).map INode.start).getD 0

/- extractTextContentWithMarks and its two child-scanning loops.
   extractNestedIn: the "check for nested formatting" loop — the first
   child whose kind is among the candidate kinds is recursed into.
   extractFallback: the trailing "look for text content in children" loop. -/
mutual
def extractTextContentWithMarks : INode → Str → Str × List ADFMark
  | .mk kind _s _e children, buf =>
    let marks := markForKind kind
    if kind = str "strong_emphasis" then
      let ds := delimsOf children
      let firstEnd := delimEndAt ds 1
      let lastStart := delimStartAt ds 2
      if ds.length ≥ 4 ∧ lastStart > firstEnd then
        match extractNestedIn
            [str "underline", str "strikethrough", str "emphasis"]
            children buf with
        | some (t, ms) => (t, marks ++ ms)
        | none => (extractSeg buf firstEnd lastStart, marks)
      else extractFallback children buf marks
    else if kind = str "strikethrough" ∨ kind = str "emphasis" then
      let ds := delimsOf children
      let firstEnd := delimEndAt ds 0
      let lastStart := delimStartAt ds 1
      if ds.length ≥ 2 ∧ lastStart > firstEnd then
        match extractNestedIn (emphasisFamily.filter (· ≠ kind))
            children buf with
        | some (t, ms) => (t, marks ++ ms)
        | none => (extractSeg buf firstEnd lastStart, marks)
      else extractFallback children buf marks
    else if kind = str "underline" then
      match children.find? (fun c => c.kind = str "underline_content") with
      | some c => (extractSeg buf c.start c.stop, marks)
      | none => extractFallback children buf marks
    else extractFallback children buf marks
def extractNestedIn :
    List Str → List INode → Str → Option (Str × List ADFMark)
  | _, [], _ => none
  | cands, c :: cs, buf =>
    if cands.contains c.kind then some (extractTextContentWithMarks c buf)
    else extractNestedIn cands cs buf
def extractFallback : List INode → Str → List ADFMark → Str × List ADFMark
  | [], _, marks => ([], marks)
  | c :: cs, buf, marks =>
    let k := c.kind
    if k = str "underline_content" then
      let (t, ms) := extractFallback cs buf marks
      (extractSeg buf c.start c.stop ++ t, ms)
    else if emphasisFamily.contains k then
      let (nt, nms) := extractTextContentWithMarks c buf
      let (t, ms) := extractFallback cs buf (marks ++ nms)
      (nt ++ t, ms)
    else if k = str "emphasis_delimiter" ∨ k = str "underline_open"
        ∨ k = str "underline_close" then
      extractFallback cs buf marks
    else if ¬(listHasInfix (str "delimiter") k)
        ∧ ¬(listHasInfix (str "_open") k) ∧ ¬(listHasInfix (str "_close") k) then
      let (t, ms) := extractFallback cs buf marks
      (extractSeg buf c.start c.stop ++ t, ms)
    else extractFallback cs buf marks
end

/- processTextWithMarks. -/
def processTextWithMarks (n : INode) (buf : Str) : List ADFNode :=
  let r := extractTextContentWithMarks n buf
  if (goTrimSpace r.1).isEmpty then [] else [NewTextNodeWithMarks r.1 r.2]

/- The inner-text extraction of processCodeSpan: the first "text" child's
   span, else the whole span with surrounding backticks trimmed (Go tests
   the extracted string for emptiness, so an empty text child also falls
   back to the trim). -/
def codeSpanText (n : INode) (buf : Str) : Str :=
  let fromChild :=
    match n.children.find? (fun c => c.kind = str "text") with
    | some c => extractSeg buf c.start c.stop
    | none => []
  if fromChild.isEmpty then goTrimChar (extractSeg buf n.start n.stop) '`'
  else fromChild

/- processCodeSpan. -/
def processCodeSpan (n : INode) (buf : Str) : List ADFNode :=
  if (codeSpanText n buf).isEmpty then []
  else [NewTextNodeWithMarks (codeSpanText n buf) [NewCodeMark]]

/- The label/destination scan of processLink (each assignment keeps the
   last matching child, like the Go loop). -/
def linkParts (cs : List INode) (buf : Str) : Str × Str :=
  cs.foldl
    (fun acc c =>
      if c.kind = str "link_text" then
        let t := extractSeg buf c.start c.stop
        let t' :=
          if listStartsWith (str "[") t && listEndsWith (str "]") t then
            (t.drop 1).take (t.length - 2)
          else t
        (t', acc.2)
      else if c.kind = str "link_destination" then
        let u := extractSeg buf c.start c.stop
        let u' :=
          if listStartsWith (str "(") u && listEndsWith (str ")") u then
            (u.drop 1).take (u.length - 2)
          else u
        (acc.1, u')
      else acc)
    ([], [])

/- processLink. -/
def processLink (cfg : BuildCfg) (n : INode) (buf : Str) : List ADFNode :=
  match cfg.inlineCardMapping.lookup (linkParts n.children buf).2 with
  | some card => [card]
  | none =>
    if ¬(linkParts n.children buf).1.isEmpty
        ∧ ¬(linkParts n.children buf).2.isEmpty then
      [NewTextNodeWithMarks (linkParts n.children buf).1
        [NewLinkMark (linkParts n.children buf).2]]
    else []

/- One recognized child of processInlineTreeWithGaps ("text" and the
   default branch behave identically, so they share the final case). -/
def processInlineChild (cfg : BuildCfg) (c : INode) (buf : Str) :
    List ADFNode :=
  if c.kind = str "people_mention" then
    let text := extractSeg buf c.start c.stop
    let email := goTrimSpace text
    let userID := (cfg.userMapping.lookup email).getD email
    let d1 := if listStartsWith (str "@") email then email.drop 1 else email
    -- truncating at the first '@' (a no-op when there is none, exactly as
    -- the Go Index/slice pair behaves)
    let display := d1.takeWhile (· ≠ '@')
    [NewMentionNode userID display]
  else if c.kind = str "code_span" then processCodeSpan c buf
  else if c.kind = str "inline_link" then processLink cfg c buf
  else if emphasisFamily.contains c.kind then processTextWithMarks c buf
  else
    let t := extractSeg buf c.start c.stop
    if (goTrimSpace t).isEmpty then [] else [NewTextNode t]

/- processInlineTreeWithGaps: walk the direct children in order, emitting
   the uncovered byte range before each child as a literal text node
   (unconditionally) and the trailing range after the last child when it
   is not all-whitespace. -/
def processGaps (cfg : BuildCfg) : List INode → Nat → Str → List ADFNode
  | [], pos, buf =>
    if pos < buf.length then
      let remaining := buf.drop pos
      if (goTrimSpace remaining).isEmpty then [] else [NewTextNode remaining]
    else []
  | c :: cs, pos, buf =>
    (if c.start > pos then [NewTextNode (extractSeg buf pos c.start)]
     else [])
      ++ processInlineChild cfg c buf
      ++ processGaps cfg cs c.stop buf

/- processInlineContent. -/
def processInlineContent (cfg : BuildCfg) (n : CstNode) : List ADFNode :=
  match n.itree with
  | none =>
    if (goTrimSpace n.text).isEmpty then [] else [NewTextNode n.text]
  | some children => processGaps cfg children 0 n.text

/- convertParagraph. -/
def paragraphContent (cfg : BuildCfg) : List CstNode → List ADFNode
  | [] => []
  | c :: cs =>
    (if c.kind = str "inline" then processInlineContent cfg c else [])
      ++ paragraphContent cfg cs

def convertParagraph (cfg : BuildCfg) (n : CstNode) : ADFNode :=
  .mk (str "paragraph") (paragraphContent cfg n.children) [] [] []

/- convertHeading: the marker scan (each marker assignment keeps the last
   one, default level 1) and the inline child (last one wins). -/
def headingInfo (cs : List CstNode) : Int × Option CstNode :=
  cs.foldl
    (fun acc c =>
      if c.kind = str "atx_h1_marker" then (1, acc.2)
      else if c.kind = str "atx_h2_marker" then (2, acc.2)
      else if c.kind = str "atx_h3_marker" then (3, acc.2)
      else if c.kind = str "atx_h4_marker" then (4, acc.2)
      else if c.kind = str "atx_h5_marker" then (5, acc.2)
      else if c.kind = str "atx_h6_marker" then (6, acc.2)
      else if c.kind = str "inline" then (acc.1, some c)
      else acc)
    (1, none)

def convertHeading (cfg : BuildCfg) (n : CstNode) : ADFNode :=
  let info := headingInfo n.children
  .mk (str "heading")
    (match info.2 with
     | some i => processInlineContent cfg i
     | none => [])
    [] [] [(str "level", .vInt info.1)]

/- convertCodeBlock: info-string and fence-content scan (last wins), with
   exactly one trailing fence suffix stripped, longest match first. -/
def codeBlockInfo (cs : List CstNode) : Str × Str :=
  cs.foldl
    (fun acc c =>
      if c.kind = str "info_string" then (goTrimSpace c.text, acc.2)
      else if c.kind = str "code_fence_content" then
        let raw := c.text
        let cc :=
          if listEndsWith (str "\n```") raw then
            goTrimSuffix raw (str "\n```")
          else if listEndsWith (str "```") raw then
            goTrimSuffix raw (str "```")
          else raw
        (acc.1, cc)
      else acc)
    ([], [])

def convertCodeBlock (n : CstNode) : ADFNode :=
  let info := codeBlockInfo n.children
  .mk (str "codeBlock")
    (if info.2.isEmpty then [] else [NewTextNode info.2])
    [] []
    (if info.1.isEmpty then [] else [(str "language", .vStr info.1)])

/- getListItemMarkerType. -/
def getListItemMarkerTypeL : List CstNode → Str
  | [] => str "unknown"
  | c :: cs =>
    if c.kind = str "list_marker_dot" then str "ordered"
    else if c.kind = str "list_marker_minus" ∨ c.kind = str "list_marker_plus"
        ∨ c.kind = str "list_marker_star" then str "unordered"
    else getListItemMarkerTypeL cs

def getListItemMarkerType (n : CstNode) : Str :=
  getListItemMarkerTypeL n.children

/- extractOrderFromListItem: the first dot marker whose cleaned text
   parses as an integer wins; 1 when none parses. -/
def extractOrderFromListItemL : List CstNode → Int
  | [] => 1
  | c :: cs =>
    if c.kind = str "list_marker_dot" then
      match goSscanfInt (goTrimSuffix (goTrimSpace c.text) (str ".")) with
      | some n => n
      | none => extractOrderFromListItemL cs
    else extractOrderFromListItemL cs

def extractOrderFromListItem (n : CstNode) : Int :=
  extractOrderFromListItemL n.children

/- The first-list-item marker scan of convertList: the first list_item
   child with a recognized marker decides ordered/unordered and the
   starting number (defaults: unordered / 1 when none decides). -/
def findListKind : List CstNode → Option (Bool × Int)
  | [] => none
  | c :: cs =>
    if c.kind = str "list_item" then
      let mt := getListItemMarkerType c
      if mt = str "ordered" then some (true, extractOrderFromListItem c)
      else if mt = str "unordered" then some (false, 1)
      else findListKind cs
    else findListKind cs

/- convertList / convertListItem. -/
mutual
def convertList (cfg : BuildCfg) : CstNode → ADFNode
  | .mk _ _ children _ =>
    let kindInfo := (findListKind children).getD (false, 1)
    if kindInfo.1 then
      .mk (str "orderedList") (listItems cfg children) [] []
        (if kindInfo.2 > 1 then [(str "order", .vInt kindInfo.2)] else [])
    else
      .mk (str "bulletList") (listItems cfg children) [] [] []
def listItems (cfg : BuildCfg) : List CstNode → List ADFNode
  | [] => []
  | c :: cs =>
    (if c.kind = str "list_item" then [convertListItem cfg c] else [])
      ++ listItems cfg cs
def convertListItem (cfg : BuildCfg) : CstNode → ADFNode
  | .mk _ _ children _ =>
    .mk (str "listItem") (itemContent cfg children) [] [] []
def itemContent (cfg : BuildCfg) : List CstNode → List ADFNode
  | [] => []
  | c :: cs =>
    (if c.kind = str "paragraph" then [convertParagraph cfg c]
     else if c.kind = str "list" then [convertList cfg c]
     else [])
      ++ itemContent cfg cs
end

/- extractPanelType: the first panel_type child owning a "type" child
   decides, with a leading '#' stripped; "info" otherwise. -/
def extractPanelTypeL : List CstNode → Str
  | [] => str "info"
  | c :: cs =>
    if c.kind = str "panel_type" then
      match c.children.find? (fun tc => tc.kind = str "type") with
      | some tc => goDropLeading tc.text (str "#")
      | none => extractPanelTypeL cs
    else extractPanelTypeL cs

def extractPanelType (n : CstNode) : Str :=
  extractPanelTypeL n.children

/- parseCellContent: a full "**text**" match yields one strong text node,
   otherwise one plain text node (headers always get a strong mark). -/
def parseCellContent (cellText : Str) (isHeader : Bool) : List ADFNode :=
  if listStartsWith (str "**") cellText && listEndsWith (str "**") cellText
      && cellText.length > 4 then
    [.mk (str "text") [] ((cellText.drop 2).take (cellText.length - 4))
      [⟨str "strong", []⟩] []]
  else
    [.mk (str "text") [] cellText
      (if isHeader then [⟨str "strong", []⟩] else []) []]

/- convertPipeTableRow. -/
def rowCells : List CstNode → Bool → List ADFNode
  | [], _ => []
  | c :: cs, isHeader =>
    (if c.kind = str "pipe_table_cell" then
      let cellText := goTrimSpace c.text
      let para :=
        if cellText.isEmpty then NewParagraphNode
        else ADFNode.mk (str "paragraph") (parseCellContent cellText isHeader)
          [] [] []
      [ADFNode.mk (if isHeader then str "tableHeader" else str "tableCell")
        [para] [] [] []]
     else [])
      ++ rowCells cs isHeader

def convertPipeTableRow (n : CstNode) (isHeader : Bool) : ADFNode :=
  .mk (str "tableRow") (rowCells n.children isHeader) [] [] []

/- convertPipeTable (delimiter rows are skipped). -/
def tableRows : List CstNode → List ADFNode
  | [] => []
  | c :: cs =>
    (if c.kind = str "pipe_table_header" then [convertPipeTableRow c true]
     else if c.kind = str "pipe_table_row" then [convertPipeTableRow c false]
     else [])
      ++ tableRows cs

def convertPipeTable (n : CstNode) : ADFNode :=
  .mk (str "table") (tableRows n.children) [] [] NewTableNode.attrs

/- processNode / processChildren / convertPanel's accumulation loop.
   The loop's "section" case runs processChildren on the section's
   children, which is exactly what processNode does for a "section" node,
   so the model routes both panel cases through processNode on the child
   itself (keeping the recursion structural). -/
mutual
def processNode (cfg : BuildCfg) : CstNode → List ADFNode
  | .mk kind tx children itree =>
    if kind = str "document" ∨ kind = str "section" then
      processChildren cfg children
    else if kind = str "atx_heading" then
      [convertHeading cfg (.mk kind tx children itree)]
    else if kind = str "attachment" then
      attachmentContent cfg children
    else if kind = str "paragraph" then
      [convertParagraph cfg (.mk kind tx children itree)]
    else if kind = str "fenced_code_block" then
      [convertCodeBlock (.mk kind tx children itree)]
    else if kind = str "list" then
      [convertList cfg (.mk kind tx children itree)]
    else if kind = str "panel" then
      [ADFNode.mk (str "panel") (panelFold cfg children (str "info", [])).2
        [] []
        [(str "panelType", .vStr (panelFold cfg children (str "info", [])).1)]]
    else if kind = str "pipe_table" then
      [convertPipeTable (.mk kind tx children itree)]
    else []
def processChildren (cfg : BuildCfg) : List CstNode → List ADFNode
  | [] => []
  | c :: cs => processNode cfg c ++ processChildren cfg cs
def attachmentContent (cfg : BuildCfg) : List CstNode → List ADFNode
  | [] => []
  | c :: cs =>
    (if c.kind = str "attachment_path" then
      match cfg.mediaMapping.lookup c.text with
      | some m => [m]
      | none => []
     else [])
      ++ attachmentContent cfg cs
def panelFold (cfg : BuildCfg) :
    List CstNode → Str × List ADFNode → Str × List ADFNode
  | [], acc => acc
  | c :: cs, acc =>
    panelFold cfg cs
      (if c.kind = str "panel_start" then (extractPanelType c, acc.2)
       else if c.kind = str "section" then
        (acc.1, acc.2 ++ processNode cfg c)
       else if c.kind = str "paragraph" ∨ c.kind = str "atx_heading"
          ∨ c.kind = str "fenced_code_block" ∨ c.kind = str "list" then
        (acc.1, acc.2 ++ processNode cfg c)
       else acc)
end

/- convertPanel (a wrapper around the loop above). -/
def convertPanel (cfg : BuildCfg) (n : CstNode) : ADFNode :=
  .mk (str "panel") (panelFold cfg n.children (str "info", [])).2 [] []
    [(str "panelType", .vStr (panelFold cfg n.children (str "info", [])).1)]

/- TranslateToADF, applied to the CST delivered by the external parser
   (a parse failure would be propagated before the builder runs). -/
def translateToADF (cfg : BuildCfg) (root : CstNode) : ADFDocument :=
  ⟨1, str "doc", processNode cfg root⟩

/- **************************  claims on the builder  ************************** -/

/- The concrete CST the grammar produces for `~**<u>text</u>**~` (shape
   fixed by the repository's triple-combined-marks test): a strikethrough
   node with one emphasis delimiter on each side around a strong_emphasis
   node with two delimiters per side around an underline node carrying an
   explicit underline_content span. -/
def c3UnderlineI : INode :=
  .mk (str "underline") 3 14
    [.mk (str "underline_open") 3 6 [],
     .mk (str "underline_content") 6 10 [],
     .mk (str "underline_close") 10 14 []]

def c3StrongI : INode :=
  .mk (str "strong_emphasis") 1 16
    [.mk (str "emphasis_delimiter") 1 2 [],
     .mk (str "emphasis_delimiter") 2 3 [],
     c3UnderlineI,
     .mk (str "emphasis_delimiter") 14 15 [],
     .mk (str "emphasis_delimiter") 15 16 []]

def c3StrikeI : INode :=
  .mk (str "strikethrough") 0 17
    [.mk (str "emphasis_delimiter") 0 1 [],
     c3StrongI,
     .mk (str "emphasis_delimiter") 16 17 []]

def c3Cst : CstNode :=
  .mk (str "document") (str "~**<u>text</u>**~")
    [.mk (str "paragraph") (str "~**<u>text</u>**~")
      [.mk (str "inline") (str "~**<u>text</u>**~") [] (some [c3StrikeI])]
      none]
    none

/-- C3: building the input `~**<u>text</u>**~` yields a single text node
with literal text "text" and mark list exactly [strike, strong, underline]
in that order: the strikethrough node contributes its mark and recurses
into the nested strong_emphasis node, which contributes its mark and
recurses into the underline node, which takes its underline_content span
literally. -/
theorem c3_mark_order :
    translateToADF emptyCfg c3Cst =
      ⟨1, str "doc",
        [.mk (str "paragraph")
          [.mk (str "text") [] (str "text")
            [⟨str "strike", []⟩, ⟨str "strong", []⟩, ⟨str "underline", []⟩]
            []]
          [] [] []]⟩ := by
  rfl

/- findListKind decides on the first list_item child with a recognized
   marker. -/
theorem findListKind_first_ordered (pre : List CstNode) (item : CstNode)
    (post : List CstNode)
    (hpre : ∀ x ∈ pre, ¬x.kind = str "list_item")
    (hitem : item.kind = str "list_item")
    (hord : getListItemMarkerType item = str "ordered") :
    findListKind (pre ++ item :: post) =
      some (true, extractOrderFromListItem item) := by
  induction pre with
  | nil =>
    simp only [List.nil_append, findListKind]
    rw [if_pos hitem, if_pos hord]
  | cons p ps ih =>
    simp only [List.cons_append, findListKind]
    rw [if_neg (hpre p (by simp))]
    exact ih fun x hx => hpre x (by simp [hx])

/- The concrete CST for `5. fifth item\n6. sixth item` (two list items
   whose dot markers carry the digits; the inline trees play no role for
   the list attributes and are left unexposed). -/
def c6Item (mrk txt : String) : CstNode :=
  .mk (str "list_item") []
    [.mk (str "list_marker_dot") (str mrk) [] none,
     .mk (str "paragraph") (str txt)
       [.mk (str "inline") (str txt) [] none] none]
    none

def c6Cst : CstNode :=
  .mk (str "document") (str "5. fifth item\n6. sixth item")
    [.mk (str "list") []
      [c6Item "5. " "fifth item", c6Item "6. " "sixth item"] none]
    none

/-- C6: a list whose first recognized item marker is a dot marker builds
one ordered-list node whose attribute map holds order = n exactly when the
marker's digits parse to n > 1 and holds no order key when n = 1; an item
none of whose dot markers parses defaults to order 1; and the input
`5. fifth item\n6. sixth item` yields one ordered-list node with
order = 5. -/
theorem c6_ordered_list_order :
    (∀ (cfg : BuildCfg) (k tx : Str) (it : Option (List INode))
        (pre : List CstNode) (item : CstNode) (post : List CstNode),
        (∀ x ∈ pre, ¬x.kind = str "list_item") →
        item.kind = str "list_item" →
        getListItemMarkerType item = str "ordered" →
        convertList cfg (.mk k tx (pre ++ item :: post) it) =
          .mk (str "orderedList")
            (listItems cfg (pre ++ item :: post)) [] []
            (if extractOrderFromListItem item > 1 then
              [(str "order", .vInt (extractOrderFromListItem item))]
             else [])) ∧
    (∀ (pre : List CstNode) (m : CstNode) (post : List CstNode) (n : Int),
        (∀ x ∈ pre, ¬x.kind = str "list_marker_dot") →
        m.kind = str "list_marker_dot" →
        goSscanfInt (goTrimSuffix (goTrimSpace m.text) (str ".")) = some n →
        extractOrderFromListItemL (pre ++ m :: post) = n) ∧
    (∀ cs : List CstNode,
        (∀ x ∈ cs, x.kind = str "list_marker_dot" →
          goSscanfInt (goTrimSuffix (goTrimSpace x.text) (str ".")) = none) →
        extractOrderFromListItemL cs = 1) ∧
    translateToADF emptyCfg c6Cst =
      ⟨1, str "doc",
        [.mk (str "orderedList")
          [.mk (str "listItem")
            [.mk (str "paragraph") [.mk (str "text") [] (str "fifth item") [] []]
              [] [] []] [] [] [],
           .mk (str "listItem")
            [.mk (str "paragraph") [.mk (str "text") [] (str "sixth item") [] []]
              [] [] []] [] [] []]
          [] [] [(str "order", .vInt 5)]]⟩ := by
  refine ⟨?_, ?_, ?_, ?_⟩
  · intro cfg k tx it pre item post hpre hitem hord
    have h := findListKind_first_ordered pre item post hpre hitem hord
    simp only [convertList, h, Option.getD_some, if_true]
  · intro pre m post n hpre hm hparse
    induction pre with
    | nil =>
      simp only [List.nil_append, extractOrderFromListItemL]
      rw [if_pos hm, hparse]
    | cons p ps ih =>
      simp only [List.cons_append, extractOrderFromListItemL]
      rw [if_neg (hpre p (by simp))]
      exact ih fun x hx => hpre x (by simp [hx])
  · intro cs hall
    induction cs with
    | nil => rfl
    | cons c cs ih =>
      simp only [extractOrderFromListItemL]
      by_cases hc : c.kind = str "list_marker_dot"
      · rw [if_pos hc, hall c (by simp) hc]
        exact ih fun x hx h => hall x (by simp [hx]) h
      · rw [if_neg hc]
        exact ih fun x hx h => hall x (by simp [hx]) h
  · rfl

/- A concrete list CST starting at item number 5, for the witness. -/
def c6WitnessList : CstNode :=
  .mk (str "list") [] [c6Item "5. " "x"] none

/-- C6 witness: the general ordered-list statement applied at a concrete
single-item list with marker "5. ", plus the parse lemma at "5. " and the
parse-failure default at a dotted marker without digits. -/
theorem c6_ordered_list_order_witness :
    convertList emptyCfg c6WitnessList =
      .mk (str "orderedList") (listItems emptyCfg [c6Item "5. " "x"]) [] []
        [(str "order", .vInt 5)] ∧
    extractOrderFromListItemL
      [.mk (str "list_marker_dot") (str "5. ") [] none] = 5 ∧
    extractOrderFromListItemL
      [.mk (str "list_marker_dot") (str ". ") [] none] = 1 := by
  refine ⟨?_, ?_, ?_⟩
  · have h := c6_ordered_list_order.1 emptyCfg (str "list") [] none
      [] (c6Item "5. " "x") [] (by simp) (by rfl) (by rfl)
    simpa [extractOrderFromListItem, c6Item, extractOrderFromListItemL,
      getListItemMarkerType] using h
  · exact c6_ordered_list_order.2.1 [] (.mk (str "list_marker_dot") (str "5. ") [] none)
      [] 5 (by simp) rfl (by rfl)
  · exact c6_ordered_list_order.2.2.1
      [.mk (str "list_marker_dot") (str ". ") [] none]
      (by intro x hx h; simp at hx; subst hx; rfl)

theorem takeWhile_append_stop (l r : Str)
    (hl : ∀ a ∈ l, a ≠ '@') :
    (l ++ '@' :: r).takeWhile (· ≠ '@') = l := by
  induction l with
  | nil => simp [List.takeWhile]
  | cons a as ih =>
    have ha : a ≠ '@' := hl a (by simp)
    simp only [List.cons_append, List.takeWhile_cons]
    rw [if_pos (by simpa using ha)]
    rw [ih fun x hx => hl x (by simp [hx])]

/- The concrete CST for `Contact @admin@example.com`: one paragraph whose
   inline tree holds a single people_mention spanning bytes 8..26. -/
def c7Buf : Str := str "Contact @admin@example.com"

def c7MentionI : INode := .mk (str "people_mention") 8 26 []

def c7Cst : CstNode :=
  .mk (str "document") c7Buf
    [.mk (str "paragraph") c7Buf
      [.mk (str "inline") c7Buf [] (some [c7MentionI])] none]
    none

/-- C7: a mention whose trimmed text is `@local@domain` and which is absent
from the identity map yields one mention node whose id is the full trimmed
string and whose display text is the local part (leading '@' stripped,
everything from the next '@' dropped); in particular
`Contact @admin@example.com` with an empty identity map yields a mention
node with id "@admin@example.com" and text "admin". -/
theorem c7_mention_resolution :
    (∀ (cfg : BuildCfg) (c : INode) (buf locl domain : Str),
        c.kind = str "people_mention" →
        goTrimSpace (extractSeg buf c.start c.stop) =
          '@' :: (locl ++ '@' :: domain) →
        (∀ a ∈ locl, a ≠ '@') →
        cfg.userMapping.lookup ('@' :: (locl ++ '@' :: domain)) = none →
        processInlineChild cfg c buf =
          [NewMentionNode ('@' :: (locl ++ '@' :: domain)) locl]) ∧
    translateToADF emptyCfg c7Cst =
      ⟨1, str "doc",
        [.mk (str "paragraph")
          [.mk (str "text") [] (str "Contact ") [] [],
           .mk (str "mention") [] [] []
            [(str "id", .vStr (str "@admin@example.com")),
             (str "text", .vStr (str "admin"))]]
          [] [] []]⟩ := by
  constructor
  · intro cfg c buf locl domain hkind htrim hlocal hmap
    unfold processInlineChild
    rw [if_pos hkind]
    simp only [htrim, hmap, Option.getD_none]
    have hpre : listStartsWith (str "@") ('@' :: (locl ++ '@' :: domain))
        = true := by simp [str, listStartsWith]
    rw [if_pos hpre]
    simp only [List.drop_one, List.tail_cons]
    rw [takeWhile_append_stop locl domain hlocal]
  · rfl

/-- C7 witness: the general mention statement applied at the concrete
mention span of `Contact @admin@example.com` with an empty identity map. -/
theorem c7_mention_resolution_witness :
    processInlineChild emptyCfg c7MentionI c7Buf =
      [NewMentionNode (str "@admin@example.com") (str "admin")] := by
  have h := c7_mention_resolution.1 emptyCfg c7MentionI c7Buf
    (str "admin") (str "example.com") rfl (by rfl) (by decide) rfl
  exact h

/- Concrete CSTs for the empty inline constructs: an empty code span
   (two backtick delimiters, no inner text), `[text]()` and `[](url)`. -/
def c8CodeSpanI : INode :=
  .mk (str "code_span") 0 2
    [.mk (str "code_span_delimiter") 0 1 [],
     .mk (str "code_span_delimiter") 1 2 []]

def c8LinkEmptyDest : INode :=
  .mk (str "inline_link") 0 8
    [.mk (str "link_text") 0 6 [], .mk (str "link_destination") 6 8 []]

def c8LinkEmptyLabel : INode :=
  .mk (str "inline_link") 0 7
    [.mk (str "link_text") 0 2 [], .mk (str "link_destination") 2 7 []]

/-- C8: empty inline constructs are elided: a code span whose extracted
inner text is empty emits no node and no code mark, and an inline link
whose label or destination is empty (and whose destination is not a
registered card) emits no node and no link mark; in particular the empty
code span, `[text]()` and `[](url)` all emit nothing. -/
theorem c8_empty_constructs :
    (∀ (n : INode) (buf : Str),
        codeSpanText n buf = [] → processCodeSpan n buf = []) ∧
    (∀ (cfg : BuildCfg) (n : INode) (buf : Str),
        ((linkParts n.children buf).1 = [] ∨
          (linkParts n.children buf).2 = []) →
        cfg.inlineCardMapping.lookup (linkParts n.children buf).2 = none →
        processLink cfg n buf = []) ∧
    processCodeSpan c8CodeSpanI (str "``") = [] ∧
    processLink emptyCfg c8LinkEmptyDest (str "[text]()") = [] ∧
    processLink emptyCfg c8LinkEmptyLabel (str "[](url)") = [] := by
  refine ⟨?_, ?_, by rfl, by rfl, by rfl⟩
  · intro n buf h
    unfold processCodeSpan
    rw [h]
    rfl
  · intro cfg n buf hempty hmap
    unfold processLink
    rw [hmap]
    rcases hempty with h | h
    · rw [if_neg]
      rintro ⟨h1, _⟩
      exact h1 (by simp [h])
    · rw [if_neg]
      rintro ⟨_, h2⟩
      exact h2 (by simp [h])

/-- C8 witness: both general statements applied at the concrete empty code
span and the concrete `[text]()` link. -/
theorem c8_empty_constructs_witness :
    processCodeSpan c8CodeSpanI (str "``") = [] ∧
    processLink emptyCfg c8LinkEmptyDest (str "[text]()") = [] := by
  constructor
  · exact c8_empty_constructs.1 c8CodeSpanI (str "``") (by rfl)
  · exact c8_empty_constructs.2.1 emptyCfg c8LinkEmptyDest (str "[text]()")
      (Or.inr (by rfl)) rfl

/- ******  ADF → markdown renderer (src/adf2md/adf2md_translator.go)  ****** -/

/- The renderer state of MarkdownTranslator (the widths slice is computed
   on table close and read nowhere else, so it is kept local to
   renderTable). -/
structure TableSt where
  rows : Nat
  cols : Nat
  ccol : Nat
  sep : Bool
  content : List (List Str)
  inTable : Bool
  inTableCell : Bool

structure ListSt where
  ol : List (Int × Bool)
  ul : List (Int × Bool)
  depthO : Int
  depthU : Int
  counter : List (Int × Int)

structure RState where
  table : TableSt
  list : ListSt

/- The fresh state NewMarkdownTranslator builds (empty maps, zero
   counters). -/
def st0 : RState := ⟨⟨0, 0, 0, false, [], false, false⟩, ⟨[], [], 0, 0, []⟩⟩

/- Go map reads (missing key yields the zero value) and writes (the
   newest binding shadows older ones). -/
def mGetB (m : List (Int × Bool)) (k : Int) : Bool := (m.lookup k).getD false

def mGetI (m : List (Int × Int)) (k : Int) : Int := (m.lookup k).getD 0

def mSetB (m : List (Int × Bool)) (k : Int) (v : Bool) : List (Int × Bool) :=
  (k, v) :: m

def mSetI (m : List (Int × Int)) (k : Int) (v : Int) : List (Int × Int) :=
  (k, v) :: m

/- The Connector interface: a node or a mark, seen as type plus
   attributes. -/
structure Conn where
  typ : Str
  attrs : List (Str × GoVal)

/- fmt's %d (decimal rendering of an integer; the fuel-based helper
   consumes one decimal digit per step, so fuel n + 1 always suffices). -/
def natToStrAux : Nat → Nat → Str
  | 0, _ => []
  | _ + 1, 0 => []
  | fuel + 1, n =>
    natToStrAux fuel (n / 10) ++ [Char.ofNat ('0'.toNat + n % 10)]

def natToStr (n : Nat) : Str :=
  if n = 0 then str "0" else natToStrAux (n + 1) n

def intToStr (i : Int) : Str :=
  if i < 0 then '-' :: natToStr i.natAbs else natToStr i.toNat

/- fmt's %s verb on an attribute value (a non-string prints Go's
   %!s(type=value) notice rather than failing). -/
def goSprintfS : GoVal → Str
  | .vStr s => s
  | .vInt n => str "%!s(int=" ++ intToStr n ++ str ")"
  | .vFloat n => str "%!s(float64=" ++ intToStr n ++ str ")"
  | .vBool b =>
    str "%!s(bool=" ++ (if b then str "true" else str "false") ++ str ")"

/- setOpenTagAttributes: iterate the attribute map; "language" and "text"
   print their value (switching the trailing-newline flag on and off),
   "level" prints that many '#' plus a space after asserting the value is
   a float64 (a non-float value is a failed type assertion, i.e. a panic);
   after every entry a newline is emitted while the flag is on.  The
   isValidAttr guard admits exactly the three switch cases, so it needs no
   separate step.  (Through the Connector interface the attribute map is
   never a nil interface, so Go's nil check is dead; a nil map behaves as
   an empty one.) -/
def setOpenAttrsLoop : List (Str × GoVal) → Str → Bool → Option Str
  | [], tag, _ => some tag
  | (k, v) :: rest, tag, nl => do
    let step ←
      if k = str "language" then some (tag ++ goSprintfS v, true)
      else if k = str "level" then
        match v with
        | .vFloat n =>
          some (tag ++ List.replicate n.toNat '#' ++ [' '], nl)
        | _ => none
      else if k = str "text" then some (tag ++ goSprintfS v, false)
      else some (tag, nl)
    setOpenAttrsLoop rest (if step.2 then step.1 ++ ['\n'] else step.1)
      step.2

def setOpenTagAttributes (a : List (Str × GoVal)) : Option Str :=
  setOpenAttrsLoop a [] false

/- setOpenTagAttributesForMention, for a translator built without a user
   email resolver (NewMarkdownTranslator() with no options): the id must
   be a string (failed assertion = panic) but resolves to "", so the
   display falls back to the text attribute (also asserted to be a
   string), with a leading '@' stripped. -/
def mentionFallbackText (a : List (Str × GoVal)) : Option Str :=
  match a.lookup (str "text") with
  | some (.vStr t) =>
    some (if listStartsWith (str "@") t then t.drop 1 else t)
  | some _ => none
  | none => some []

def setOpenTagAttributesForMention (a : List (Str × GoVal)) : Option Str :=
  match a.lookup (str "id") with
  | some (.vStr _) => mentionFallbackText a
  | some _ => none
  | none => mentionFallbackText a

/- setCloseTagAttributes. -/
def setCloseTagAttributes (a : List (Str × GoVal)) : Str :=
  match a.lookup (str "href") with
  | some v => ['('] ++ goSprintfS v ++ str ") "
  | none => []

/- extractMediaID / extractCardURL: the attributes are marshalled to JSON
   and decoded into the typed struct; a string-typed field comes through,
   anything else makes the decode fail and yields "".  (The model reads
   the one field of interest directly.) -/
def extractMediaID (a : List (Str × GoVal)) : Str :=
  match a.lookup (str "id") with
  | some (.vStr s) => s
  | _ => []

def extractCardURL (a : List (Str × GoVal)) : Str :=
  match a.lookup (str "url") with
  | some (.vStr s) => s
  | _ => []

/- calculateColumnWidths: widths start at zero for every column index up
   to the widest row, every row bumps its columns to the running maximum,
   and a floor of 5 is applied at the end. -/
def bumpRow : List Nat → List Str → List Nat
  | ws, [] => ws
  | [], _ :: _ => []
  | w :: ws, cell :: cells => max w cell.length :: bumpRow ws cells

def maxColsOf (content : List (List Str)) : Nat :=
  content.foldl (fun m r => max m r.length) 0

def calculateColumnWidths (content : List (List Str)) : List Nat :=
  (content.foldl bumpRow (List.replicate (maxColsOf content) 0)).map
    (fun w => max w 5)

/- fmt.Sprintf " %-*s " (левый-justified padding never truncates). -/
def padCell (cell : Str) (w : Nat) : Str :=
  [' '] ++ cell ++ List.replicate (w - cell.length) ' ' ++ [' ']

/- One table row: "|" then every cell padded to its column width followed
   by "|", then a newline. -/
def renderCells : List Nat → List Str → Str
  | _, [] => []
  | w :: ws, cell :: cells => padCell cell w ++ ['|'] ++ renderCells ws cells
  | [], cell :: cells => padCell cell 0 ++ ['|'] ++ renderCells [] cells

def renderRow (ws : List Nat) (row : List Str) : Str :=
  ['|'] ++ renderCells ws row ++ ['\n']

/- The dashed separator, one run of width+2 dashes per header column. -/
def sepCells : List Nat → List Str → Str
  | _, [] => []
  | w :: ws, _ :: cells =>
    List.replicate (w + 2) '-' ++ ['|'] ++ sepCells ws cells
  | [], _ :: cells => List.replicate 2 '-' ++ ['|'] ++ sepCells [] cells

def sepRow (ws : List Nat) (row : List Str) : Str :=
  ['|'] ++ sepCells ws row ++ ['\n']

/- renderTable: every buffered row, with the separator emitted right
   after the first (header) row. -/
def renderTable (content : List (List Str)) : Str :=
  match content with
  | [] => []
  | r0 :: rest =>
    renderRow (calculateColumnWidths content) r0
      ++ sepRow (calculateColumnWidths content) r0
      ++ List.flatten (rest.map (renderRow (calculateColumnWidths content)))

/- addCellContent: a no-op before any row is buffered; otherwise appends
   to cell (ccol-1) — or (cols-1) for header rows — of the last buffered
   row, first extending the row with empty cells; when both counters are
   zero the Go index is -1, an out-of-range panic. -/
def addCellContent (t : TableSt) (content : Str) : Option TableSt :=
  if t.rows = 0 ∨ t.content.length < t.rows then some t
  else
    let currentCol : Int :=
      if t.ccol > 0 then (t.ccol : Int) - 1 else (t.cols : Int) - 1
    if currentCol < 0 then none
    else
      let idx := currentCol.toNat
      let row := (t.content.get? (t.rows - 1)).getD []
      let row1 := row ++ List.replicate (idx + 1 - row.length) []
      let row2 := row1.set idx (row1.getD idx [] ++ content)
      some { t with content := t.content.set (t.rows - 1) row2 }

/- sanitize: trailing newlines trimmed, '<' → '❬' and '>' → '❭'. -/
def sanitize (s : Str) : Str :=
  goReplaceAll (goReplaceAll (goTrimRightChar s '\n') (str "<") (str "❬"))
    (str ">") (str "❭")

/- The indentation loop of the listItem case (one 4-space indent per
   depth above 1; a non-positive count indents nothing). -/
def listIndent (n : Int) : Str :=
  List.flatten (List.replicate n.toNat (str "    "))

/- MarkdownTranslator.Open (the default translator, no dialect hooks):
   returns the opening text and the updated state, or `none` on a failed
   type assertion inside the attribute rendering.  The mention case
   returns early, skipping setOpenTagAttributes. -/
def openBase (c : Conn) (st : RState) : Str × RState :=
      if c.typ = str "blockquote" then (str "> ", st)
      else if c.typ = str "codeBlock" then
        (str "```"
          ++ (if c.attrs.any (fun kv => kv.1 = str "language") then []
              else ['\n']), st)
      else if c.typ = str "panel" then (str "---" ++ ['\n'], st)
      else if c.typ = str "table" then
        (['\n'], { st with table := { st.table with inTable := true } })
      else if c.typ = str "media" then
        (if ¬(extractMediaID c.attrs).isEmpty then
          ['\n'] ++ str "\x7battachment:" ++ extractMediaID c.attrs
            ++ str "\x7d"
         else ['\n'] ++ str "[attachment]", st)
      else if c.typ = str "bulletList" then
        ([], { st with list :=
          { st.list with depthU := st.list.depthU + 1,
                         ul := mSetB st.list.ul (st.list.depthU + 1) true } })
      else if c.typ = str "orderedList" then
        ([], { st with list :=
          { st.list with depthO := st.list.depthO + 1,
                         ol := mSetB st.list.ol (st.list.depthO + 1) true } })
      else if c.typ = str "listItem" then
        if mGetB st.list.ol st.list.depthO then
          (listIndent (st.list.depthO - 1)
            ++ intToStr (mGetI st.list.counter st.list.depthO + 1)
            ++ str ". ",
           { st with list :=
             { st.list with
               counter := mSetI st.list.counter st.list.depthO
                 (mGetI st.list.counter st.list.depthO + 1) } })
        else (listIndent (st.list.depthU - 1) ++ str "- ", st)
      else if c.typ = str "tableHeader" then
        ([], { st with table :=
          { st.table with cols := st.table.cols + 1, inTableCell := true } })
      else if c.typ = str "tableCell" then
        ([], { st with table :=
          { st.table with ccol := st.table.ccol + 1, inTableCell := true } })
      else if c.typ = str "tableRow" then
        ([], { st with table :=
          { st.table with
            rows := st.table.rows + 1,
            sep := if st.table.rows + 1 = 1 ∧ ¬st.table.sep then true
              else st.table.sep,
            content := if st.table.content.length < st.table.rows + 1 then
                st.table.content ++ [[]]
              else st.table.content,
            ccol := 0 } })
      else if c.typ = str "hardBreak" then (str "\n\n", st)
      else if c.typ = str "inlineCard" then
        (if ¬(extractCardURL c.attrs).isEmpty then
          str "[link](" ++ extractCardURL c.attrs ++ str ")"
         else str " 📍 ", st)
      else if c.typ = str "underline" then (str "<u>", st)
      else if c.typ = str "strong" then (str "**", st)
      else if c.typ = str "em" then (str "_", st)
      else if c.typ = str "code" then (str "`", st)
      else if c.typ = str "strike" then (str "-", st)
      else if c.typ = str "link" then (str "[", st)
      else ([], st)

def openConn (c : Conn) (st : RState) : Option (Str × RState) :=
  if c.typ = str "mention" then do
    let m ← setOpenTagAttributesForMention c.attrs
    some (str " @" ++ m, st)
  else do
    let a ← setOpenTagAttributes c.attrs
    some ((openBase c st).1 ++ a, (openBase c st).2)

/- MarkdownTranslator.Close (total; the table case renders the buffered
   table and resets the table state — all fields except ccol, which the
   Go reset omits). -/
def closeBase (c : Conn) (st : RState) : Str × RState :=
    if c.typ = str "blockquote" then (['\n'], st)
    else if c.typ = str "codeBlock" then (str "\n```" ++ ['\n'], st)
    else if c.typ = str "panel" then (str "---" ++ ['\n'], st)
    else if c.typ = str "heading" then (['\n'], st)
    else if c.typ = str "bulletList" then
      ([], { st with list := { st.list with
        ul := mSetB st.list.ul st.list.depthU false,
        depthU := st.list.depthU - 1 } })
    else if c.typ = str "orderedList" then
      ([], { st with list := { st.list with
        ol := mSetB st.list.ol st.list.depthO false,
        depthO := st.list.depthO - 1 } })
    else if c.typ = str "paragraph" then
      (if mGetB st.list.ul st.list.depthU ∨ mGetB st.list.ol st.list.depthO
        then ['\n']
       else if st.table.rows = 0 then str "\n\n"
       else [], st)
    else if c.typ = str "table" then
      (renderTable st.table.content,
       { st with table :=
         { rows := 0, cols := 0, ccol := st.table.ccol, sep := false,
           content := [], inTable := false, inTableCell := false } })
    else if c.typ = str "tableHeader" then
      ([], { st with table := { st.table with inTableCell := false } })
    else if c.typ = str "tableCell" then
      ([], { st with table := { st.table with inTableCell := false } })
    else if c.typ = str "tableRow" then ([], st)
    else if c.typ = str "mention" then ([' '], st)
    else if c.typ = str "emoji" then ([' '], st)
    else if c.typ = str "underline" then (str "</u>", st)
    else if c.typ = str "strong" then (str "**", st)
    else if c.typ = str "em" then (str "_", st)
    else if c.typ = str "code" then (str "`", st)
    else if c.typ = str "strike" then (str "-", st)
    else if c.typ = str "link" then (str "]", st)
    else ([], st)

def closeConn (c : Conn) (st : RState) : Str × RState :=
  ((closeBase c st).1 ++ setCloseTagAttributes c.attrs, (closeBase c st).2)

/- The mark-opening loop of the visitor's child branch (the tag text is
   accumulated; state changes thread through). -/
def openMarks : List ADFMark → RState → Option (Str × RState)
  | [], st => some ([], st)
  | m :: ms, st => do
    let r1 ← openConn ⟨m.typ, m.attrs⟩ st
    let r2 ← openMarks ms r1.2
    some (r1.1 ++ r2.1, r2.2)

def closeMarks : List ADFMark → RState → Str × RState
  | [], st => ([], st)
  | m :: ms, st =>
    let r1 := closeConn ⟨m.typ, m.attrs⟩ st
    let r2 := closeMarks ms r1.2
    (r1.1 ++ r2.1, r2.2)

def addCellOpt (st : RState) (content : Str) : Option RState :=
  (addCellContent st.table content).map fun tb => { st with table := tb }

/- The table-cell diversion: every mark is opened a second time and its
   text appended to the cell buffer, then the sanitized text, then the
   closes in reverse order. -/
def cellMarksOpen : List ADFMark → RState → Option RState
  | [], st => some st
  | m :: ms, st => do
    let r ← openConn ⟨m.typ, m.attrs⟩ st
    let st2 ← addCellOpt r.2 r.1
    cellMarksOpen ms st2

def cellMarksClose : List ADFMark → RState → Option RState
  | [], st => some st
  | m :: ms, st => do
    let r := closeConn ⟨m.typ, m.attrs⟩ st
    let st2 ← addCellOpt r.2 r.1
    cellMarksClose ms st2

/- Translator.visit: the media-group first-child read (an index panic on
   an empty group), open text, children, and — for child-classified
   kinds — marks, sanitized literal text and closes, with the whole tag
   diverted into the cell buffer (and the node's own close skipped) while
   inside a table cell.  The registry writes (media/inline-card mappings)
   have no effect on the emitted text and are not modelled. -/
mutual
def visitNode : ADFNode → RState → Option (Str × RState)
  | .mk typ content tx mks attrs, st =>
    if (typ = str "mediaGroup" ∨ typ = str "mediaSingle")
        ∧ content.isEmpty = true then none
    else do
      let ro ← openConn ⟨typ, attrs⟩ st
      let rb ← visitListNodes content ro.2
      if GetADFNodeType typ = str "child" then
        let opened := if typ = str "text" then mks else []
        let rm ← openMarks opened rb.2
        if rm.2.table.inTableCell then
          let st4 ← cellMarksOpen opened rm.2
          let st5 ← addCellOpt st4 (sanitize tx)
          let st6 ← cellMarksClose opened.reverse st5
          some (ro.1 ++ rb.1, st6)
        else
          let rc := closeMarks opened.reverse rm.2
          let rn := closeConn ⟨typ, attrs⟩ rc.2
          some (ro.1 ++ rb.1 ++ rm.1 ++ sanitize tx ++ rc.1 ++ rn.1, rn.2)
      else
        let rn := closeConn ⟨typ, attrs⟩ rb.2
        some (ro.1 ++ rb.1 ++ rn.1, rn.2)
def visitListNodes : List ADFNode → RState → Option (Str × RState)
  | [], st => some ([], st)
  | n :: ns, st => do
    let r1 ← visitNode n st
    let r2 ← visitListNodes ns r1.2
    some (r1.1 ++ r2.1, r2.2)
end

/- Translator.Translate on a fresh translator: walk every top-level child
   of the document node (the document node itself is never opened or
   closed). -/
def translateDoc (doc : ADFNode) : Option Str := do
  let r ← visitListNodes doc.content st0
  some r.1

/- The document wrapper the repository uses to render a built document
   (TestTableRoundtrip wraps the built content in a "doc" node). -/
def wrapDoc (d : ADFDocument) : ADFNode :=
  .mk (str "doc") d.content [] [] []

/- ***************************  claim C4: tables  *************************** -/

/- Claim-side definition: the maximum literal length of column i across
   the buffered rows (0 when the column is absent from every row, as in
   the Go loop that simply never visits it). -/
def colMaxLen (content : List (List Str)) (i : Nat) : Nat :=
  content.foldl (fun w row => max w (row.getD i []).length) 0

theorem bumpRow_length (ws : List Nat) (row : List Str) :
    (bumpRow ws row).length = ws.length := by
  induction ws generalizing row with
  | nil => cases row <;> rfl
  | cons w ws ih =>
    cases row with
    | nil => rfl
    | cons cell cells => simp [bumpRow, ih]

theorem bumpRow_getD (ws : List Nat) (row : List Str) (i : Nat)
    (h : i < ws.length) :
    (bumpRow ws row).getD i 0 = max (ws.getD i 0) (row.getD i []).length := by
  induction ws generalizing row i with
  | nil => cases h
  | cons w ws ih =>
    cases row with
    | nil =>
      cases i <;> simp [bumpRow, List.getD]
    | cons cell cells =>
      cases i with
      | zero => simp [bumpRow, List.getD]
      | succ j =>
        simp only [bumpRow, List.getD_cons_succ]
        exact ih cells j (Nat.lt_of_succ_lt_succ h)

theorem foldl_bumpRow_length (content : List (List Str)) (ws : List Nat) :
    (content.foldl bumpRow ws).length = ws.length := by
  induction content generalizing ws with
  | nil => rfl
  | cons r rs ih => simp [List.foldl_cons, ih, bumpRow_length]

theorem foldl_max_acc (g : List Str → Nat) (l : List (List Str)) (a : Nat) :
    l.foldl (fun m r => max m (g r)) a =
      max a (l.foldl (fun m r => max m (g r)) 0) := by
  induction l generalizing a with
  | nil => simp
  | cons x xs ih =>
    simp only [List.foldl_cons]
    rw [ih (max a (g x)), ih (max 0 (g x))]
    simp [Nat.max_assoc]

theorem foldl_bumpRow_getD (content : List (List Str)) (ws : List Nat)
    (i : Nat) (h : i < ws.length) :
    (content.foldl bumpRow ws).getD i 0 =
      max (ws.getD i 0) (colMaxLen content i) := by
  induction content generalizing ws with
  | nil => simp [colMaxLen]
  | cons r rs ih =>
    simp only [List.foldl_cons]
    rw [ih (bumpRow ws r) (by rw [bumpRow_length]; exact h)]
    rw [bumpRow_getD ws r i h]
    simp only [colMaxLen, List.foldl_cons]
    rw [foldl_max_acc (fun row => (row.getD i []).length) rs
      (max 0 (r.getD i []).length)]
    simp only [Nat.zero_max]
    rw [Nat.max_assoc]

theorem calculateColumnWidths_getD (content : List (List Str)) (i : Nat)
    (h : i < maxColsOf content) :
    (calculateColumnWidths content).getD i 0 = max 5 (colMaxLen content i) := by
  unfold calculateColumnWidths
  have hl : i < (content.foldl bumpRow
      (List.replicate (maxColsOf content) 0)).length := by
    rw [foldl_bumpRow_length, List.length_replicate]
    exact h
  rw [List.getD_eq_getElem?_getD, List.getElem?_map]
  rw [List.getElem?_eq_getElem hl]
  simp only [Option.map_some', Option.getD_some]
  rw [← List.getD_eq_getElem _ 0 hl]
  rw [foldl_bumpRow_getD content _ i
    (by rw [List.length_replicate]; exact h)]
  have hz : (List.replicate (maxColsOf content) 0).getD i 0 = 0 := by
    rw [List.getD_eq_getElem?_getD, List.getElem?_replicate]
    simp [h]
  rw [hz, Nat.zero_max, Nat.max_comm]

theorem le_foldl_max (g : List Str → Nat) (l : List (List Str)) (row : List Str)
    (h : row ∈ l) : g row ≤ l.foldl (fun m r => max m (g r)) 0 := by
  induction l with
  | nil => cases h
  | cons r rs ih =>
    simp only [List.foldl_cons]
    rw [foldl_max_acc g rs (max 0 (g r))]
    rcases List.mem_cons.1 h with rfl | h'
    · exact le_trans (Nat.le_max_right 0 _) (Nat.le_max_left _ _)
    · exact le_trans (ih h') (Nat.le_max_right _ _)

theorem cell_le_colMaxLen (content : List (List Str)) (row : List Str)
    (i : Nat) (h : row ∈ content) :
    (row.getD i []).length ≤ colMaxLen content i :=
  le_foldl_max (fun r => (r.getD i []).length) content row h

theorem padCell_length (cell : Str) (w : Nat) (h : cell.length ≤ w) :
    (padCell cell w).length = w + 2 := by
  simp [padCell]
  omega

/-- C4: on table close each column's emitted width is the maximum literal
cell length of that column across all buffered rows with a floor of 5;
every buffered cell fits its column width, a padded cell occupies exactly
width+2 characters, the dashed separator row is emitted immediately after
the header row; and in the concrete table whose longest second-column
cell is "Bold" (4 characters) every second-column cell is padded to
width 5. -/
theorem c4_table_layout :
    (∀ (content : List (List Str)) (i : Nat), i < maxColsOf content →
        (calculateColumnWidths content).getD i 0 =
          max 5 (colMaxLen content i)) ∧
    (∀ (content : List (List Str)) (row : List Str) (i : Nat),
        row ∈ content →
        (row.getD i []).length ≤
          max 5 (colMaxLen content i)) ∧
    (∀ (cell : Str) (w : Nat), cell.length ≤ w →
        padCell cell w =
          [' '] ++ cell ++ List.replicate (w - cell.length) ' ' ++ [' '] ∧
        (padCell cell w).length = w + 2) ∧
    (∀ (r0 : List Str) (rest : List (List Str)),
        renderTable (r0 :: rest) =
          renderRow (calculateColumnWidths (r0 :: rest)) r0
            ++ sepRow (calculateColumnWidths (r0 :: rest)) r0
            ++ List.flatten
              (rest.map (renderRow (calculateColumnWidths (r0 :: rest))))) ∧
    renderTable [[str "A", str "B"], [str "x", str "Bold"]] =
      str "| A     | B     |\n|-------|-------|\n| x     | Bold  |\n" := by
  refine ⟨calculateColumnWidths_getD, ?_, ?_, fun _ _ => rfl, by rfl⟩
  · intro content row i h
    exact le_trans (cell_le_colMaxLen content row i h) (Nat.le_max_right 5 _)
  · intro cell w h
    exact ⟨rfl, padCell_length cell w h⟩

/-- C4 witness: the width formula and the padding length at the concrete
"Bold" table (column index 1, maximal cell length 4, emitted width 5). -/
theorem c4_table_layout_witness :
    (calculateColumnWidths [[str "A", str "B"], [str "x", str "Bold"]]).getD
        1 0 = max 5 (colMaxLen [[str "A", str "B"], [str "x", str "Bold"]] 1)
      ∧ (padCell (str "Bold") 5).length = 7 := by
  constructor
  · exact c4_table_layout.1 [[str "A", str "B"], [str "x", str "Bold"]] 1
      (by decide)
  · exact ((c4_table_layout.2.2.1 (str "Bold") 5 (by decide)).2)

/- *********  well-typed attributes and marks (renderer preconditions)  ********* -/

/- A "level" attribute must hold a float64 (the renderer's type
   assertion); other keys may hold anything. -/
def levelOKB : Str × GoVal → Bool
  | (k, v) =>
    if k = str "level" then
      match v with
      | .vFloat _ => true
      | _ => false
    else true

def attrsWF (a : List (Str × GoVal)) : Bool := a.all levelOKB

/- The mention renderer asserts "id" and "text" to be strings when
   present. -/
def strOK : Option GoVal → Bool
  | some (.vStr _) => true
  | some _ => false
  | none => true

def mentionAttrsOK (a : List (Str × GoVal)) : Bool :=
  strOK (a.lookup (str "id")) && strOK (a.lookup (str "text"))

/- The mark vocabulary whose open/close rules neither fail nor touch the
   renderer state. -/
def markKinds : List Str :=
  [str "em", str "link", str "code", str "strike", str "strong",
   str "underline"]

def pureMarkB (m : ADFMark) : Bool :=
  (markKinds.contains m.typ && attrsWF m.attrs) ||
  (m.typ = str "mention" && mentionAttrsOK m.attrs)

theorem setOpenAttrsLoop_total :
    ∀ (a : List (Str × GoVal)) (tag : Str) (nl : Bool),
      attrsWF a = true → ∃ s, setOpenAttrsLoop a tag nl = some s := by
  intro a
  induction a with
  | nil => exact fun tag nl _ => ⟨tag, rfl⟩
  | cons kv rest ih =>
    intro tag nl h
    simp only [attrsWF, List.all_cons, Bool.and_eq_true] at h
    obtain ⟨h1, h2⟩ := h
    obtain ⟨k, v⟩ := kv
    simp only [setOpenAttrsLoop]
    by_cases hk1 : k = str "language"
    · rw [if_pos hk1]
      simpa using ih _ _ h2
    · rw [if_neg hk1]
      by_cases hk2 : k = str "level"
      · rw [if_pos hk2]
        simp only [levelOKB, hk2, if_pos rfl] at h1
        cases v with
        | vFloat n => simpa using ih _ _ h2
        | vStr s => cases h1
        | vInt n => cases h1
        | vBool b => cases h1
      · rw [if_neg hk2]
        by_cases hk3 : k = str "text"
        · rw [if_pos hk3]
          simpa using ih _ _ h2
        · rw [if_neg hk3]
          simpa using ih _ _ h2

theorem setOpenTagAttributes_total (a : List (Str × GoVal))
    (h : attrsWF a = true) : ∃ s, setOpenTagAttributes a = some s :=
  setOpenAttrsLoop_total a [] false h

theorem setOpenTagAttributesForMention_total (a : List (Str × GoVal))
    (h : mentionAttrsOK a = true) :
    ∃ s, setOpenTagAttributesForMention a = some s := by
  simp only [mentionAttrsOK, Bool.and_eq_true] at h
  obtain ⟨h1, h2⟩ := h
  have hfb : ∃ s, mentionFallbackText a = some s := by
    unfold mentionFallbackText
    cases hx : a.lookup (str "text") with
    | none => exact ⟨[], rfl⟩
    | some v =>
      cases v with
      | vStr t => exact ⟨_, rfl⟩
      | vInt n => rw [hx] at h2; cases h2
      | vFloat n => rw [hx] at h2; cases h2
      | vBool b => rw [hx] at h2; cases h2
  unfold setOpenTagAttributesForMention
  cases hx : a.lookup (str "id") with
  | none => exact hfb
  | some v =>
    cases v with
    | vStr t => exact hfb
    | vInt n => rw [hx] at h1; cases h1
    | vFloat n => rw [hx] at h1; cases h1
    | vBool b => rw [hx] at h1; cases h1

/- openConn on the pure mark vocabulary: total (given well-typed
   attributes) and state-preserving. -/
theorem openConn_pure_mark (m : ADFMark) (st : RState)
    (h : pureMarkB m = true) :
    ∃ s, openConn ⟨m.typ, m.attrs⟩ st = some (s, st) := by
  simp only [pureMarkB, Bool.or_eq_true, Bool.and_eq_true,
    decide_eq_true_eq] at h
  rcases h with ⟨hk, ha⟩ | ⟨hk, ha⟩
  · obtain ⟨s', hs'⟩ := setOpenTagAttributes_total m.attrs ha
    replace hk : m.typ ∈ markKinds := List.elem_iff.1 hk
    simp only [markKinds, List.mem_cons, List.not_mem_nil, or_false] at hk
    rcases hk with hk | hk | hk | hk | hk | hk
    · rw [hk]
      have heq : openConn ⟨str "em", m.attrs⟩ st =
          (setOpenTagAttributes m.attrs).bind
            (fun a => some (str "_" ++ a, st)) := rfl
      rw [heq, hs']
      exact ⟨_, rfl⟩
    · rw [hk]
      have heq : openConn ⟨str "link", m.attrs⟩ st =
          (setOpenTagAttributes m.attrs).bind
            (fun a => some (str "[" ++ a, st)) := rfl
      rw [heq, hs']
      exact ⟨_, rfl⟩
    · rw [hk]
      have heq : openConn ⟨str "code", m.attrs⟩ st =
          (setOpenTagAttributes m.attrs).bind
            (fun a => some (str "`" ++ a, st)) := rfl
      rw [heq, hs']
      exact ⟨_, rfl⟩
    · rw [hk]
      have heq : openConn ⟨str "strike", m.attrs⟩ st =
          (setOpenTagAttributes m.attrs).bind
            (fun a => some (str "-" ++ a, st)) := rfl
      rw [heq, hs']
      exact ⟨_, rfl⟩
    · rw [hk]
      have heq : openConn ⟨str "strong", m.attrs⟩ st =
          (setOpenTagAttributes m.attrs).bind
            (fun a => some (str "**" ++ a, st)) := rfl
      rw [heq, hs']
      exact ⟨_, rfl⟩
    · rw [hk]
      have heq : openConn ⟨str "underline", m.attrs⟩ st =
          (setOpenTagAttributes m.attrs).bind
            (fun a => some (str "<u>" ++ a, st)) := rfl
      rw [heq, hs']
      exact ⟨_, rfl⟩
  · obtain ⟨s', hs'⟩ := setOpenTagAttributesForMention_total m.attrs ha
    rw [hk]
    have heq : openConn ⟨str "mention", m.attrs⟩ st =
        (setOpenTagAttributesForMention m.attrs).bind
          (fun x => some (str " @" ++ x, st)) := rfl
    rw [heq, hs']
    exact ⟨_, rfl⟩

/- closeConn on the pure mark vocabulary never touches the state. -/
theorem closeConn_pure_mark (m : ADFMark) (st : RState)
    (h : pureMarkB m = true) :
    ∃ s, closeConn ⟨m.typ, m.attrs⟩ st = (s, st) := by
  simp only [pureMarkB, Bool.or_eq_true, Bool.and_eq_true,
    decide_eq_true_eq] at h
  rcases h with ⟨hk, _⟩ | ⟨hk, _⟩
  · replace hk : m.typ ∈ markKinds := List.elem_iff.1 hk
    simp only [markKinds, List.mem_cons, List.not_mem_nil, or_false] at hk
    rcases hk with hk | hk | hk | hk | hk | hk <;> rw [hk] <;> exact ⟨_, rfl⟩
  · rw [hk]
    exact ⟨_, rfl⟩

theorem openMarks_pure (mks : List ADFMark) (st : RState)
    (h : mks.all pureMarkB = true) :
    ∃ s, openMarks mks st = some (s, st) := by
  induction mks with
  | nil => exact ⟨[], rfl⟩
  | cons m ms ih =>
    simp only [List.all_cons, Bool.and_eq_true] at h
    obtain ⟨s1, h1⟩ := openConn_pure_mark m st h.1
    obtain ⟨s2, h2⟩ := ih h.2
    exact ⟨s1 ++ s2, by simp [openMarks, h1, h2]⟩

theorem closeMarks_pure (mks : List ADFMark) (st : RState)
    (h : mks.all pureMarkB = true) :
    ∃ s, closeMarks mks st = (s, st) := by
  induction mks with
  | nil => exact ⟨[], rfl⟩
  | cons m ms ih =>
    simp only [List.all_cons, Bool.and_eq_true] at h
    obtain ⟨s1, h1⟩ := closeConn_pure_mark m st h.1
    obtain ⟨s2, h2⟩ := ih h.2
    exact ⟨s1 ++ s2, by simp [closeMarks, h1, h2]⟩

/- ***********************  claim C10: sanitization  *********************** -/

/- A single-character pattern makes strings.Replace a per-character
   substitution. -/
theorem goReplaceGo_single (o : Char) (nw : Str) :
    ∀ (fuel : Nat) (s : Str), s.length ≤ fuel →
      goReplaceGo [o] nw fuel s =
        s.flatMap (fun c => if c = o then nw else [c]) := by
  intro fuel
  induction fuel with
  | zero =>
    intro s hs
    cases s with
    | nil => rfl
    | cons c cs => simp at hs
  | succ f ih =>
    intro s hs
    cases s with
    | nil => rfl
    | cons c cs =>
      simp only [goReplaceGo, stripPre]
      by_cases hc : o = c
      · rw [if_pos hc]
        simp only [Option.some.injEq]
        rw [List.flatMap_cons, if_pos hc.symm,
          ih cs (by simpa using Nat.le_of_succ_le_succ hs)]
      · rw [if_neg hc]
        simp only []
        rw [List.flatMap_cons, if_neg (fun hh => hc hh.symm),
          ih cs (by simpa using Nat.le_of_succ_le_succ hs)]
        rfl

theorem goReplaceAll_single (s : Str) (o : Char) (nw : Str) :
    goReplaceAll s [o] nw =
      s.flatMap (fun c => if c = o then nw else [c]) := by
  unfold goReplaceAll
  exact goReplaceGo_single o nw s.length s (le_refl _)

theorem not_mem_goReplaceAll_single (s : Str) (o : Char) (nw : Str)
    (x : Char) (h1 : x ∉ nw) (h2 : x = o ∨ x ∉ s) :
    x ∉ goReplaceAll s [o] nw := by
  rw [goReplaceAll_single]
  intro hx
  rw [List.mem_flatMap] at hx
  obtain ⟨c, hc, hmem⟩ := hx
  by_cases hco : c = o
  · rw [if_pos hco] at hmem
    exact h1 hmem
  · rw [if_neg hco] at hmem
    simp only [List.mem_singleton] at hmem
    subst hmem
    rcases h2 with rfl | h2
    · exact hco rfl
    · exact h2 hc

theorem sanitize_no_angle (s : Str) :
    '<' ∉ sanitize s ∧ '>' ∉ sanitize s := by
  unfold sanitize
  constructor
  · refine not_mem_goReplaceAll_single _ '>' _ '<' (by decide) (Or.inr ?_)
    exact not_mem_goReplaceAll_single _ '<' _ '<' (by decide) (Or.inl rfl)
  · exact not_mem_goReplaceAll_single _ '>' _ '>' (by decide) (Or.inl rfl)

/-- C10: a text node rendered outside a table cell emits exactly its text
passed through sanitize (trailing newlines trimmed, '<' → '❬',
'>' → '❭') between its mark delimiters, with the renderer state
untouched; consequently the emitted literal never contains a raw '<' or
'>'. -/
theorem c10_text_sanitized :
    (∀ (s : Str) (mks : List ADFMark) (st : RState),
        st.table.inTableCell = false →
        mks.all pureMarkB = true →
        ∃ pre post,
          visitNode (.mk (str "text") [] s mks []) st =
            some (pre ++ sanitize s ++ post, st)) ∧
    (∀ s : Str, '<' ∉ sanitize s ∧ '>' ∉ sanitize s) ∧
    (∀ s : Str, sanitize s =
      goReplaceAll (goReplaceAll (goTrimRightChar s '\n') (str "<")
        (str "❬")) (str ">") (str "❭")) := by
  refine ⟨?_, sanitize_no_angle, fun _ => rfl⟩
  intro s mks st hcell hpure
  obtain ⟨pre, hpre⟩ := openMarks_pure mks st hpure
  obtain ⟨post, hpost⟩ := closeMarks_pure mks.reverse st
    (by rw [List.all_reverse]; exact hpure)
  refine ⟨pre, post, ?_⟩
  have hopen : openConn ⟨str "text", []⟩ st = some ([], st) := rfl
  have hclose : closeConn ⟨str "text", []⟩ st = ([], st) := rfl
  simp only [visitNode]
  rw [if_neg (by decide)]
  simp only [Option.bind_eq_bind]
  rw [hopen]
  simp only [Option.some_bind]
  have hvl : visitListNodes ([] : List ADFNode) st = some ([], st) := rfl
  rw [hvl]
  simp only [Option.some_bind]
  rw [if_pos (by decide : GetADFNodeType (str "text") = str "child")]
  simp only [if_true]
  rw [hpre]
  simp only [Option.some_bind]
  rw [if_neg (by rw [hcell]; exact Bool.false_ne_true)]
  rw [hpost, hclose]
  simp

/-- C10 witness: the sanitization statement applied at the concrete text
"a <> b" with a strong mark, outside any table cell. -/
theorem c10_text_sanitized_witness :
    (visitNode (.mk (str "text") [] (str "a <> b") [⟨str "strong", []⟩] [])
        st0).isSome = true ∧
    '<' ∉ sanitize (str "a <> b") ∧ '>' ∉ sanitize (str "a <> b") := by
  obtain ⟨pre, post, h⟩ := c10_text_sanitized.1 (str "a <> b")
    [⟨str "strong", []⟩] st0 rfl (by decide)
  exact ⟨by rw [h]; rfl, c10_text_sanitized.2.1 (str "a <> b")⟩

/- ********************  claim C2: renderer totality  ******************** -/

def tableKinds : List Str :=
  [str "tableRow", str "tableHeader", str "tableCell"]

/- The per-node conditions under which no rendering step panics:
   media groups have a first child to read, "level" attributes are
   floats, mention ids/texts are strings, and marks come from the mark
   vocabulary. -/
def baseOKB (typ : Str) (content : List ADFNode) (mks : List ADFMark)
    (attrs : List (Str × GoVal)) : Bool :=
  (if typ = str "mediaGroup" ∨ typ = str "mediaSingle" then
    !content.isEmpty
   else true) &&
  attrsWF attrs &&
  (if typ = str "mention" then mentionAttrsOK attrs else true) &&
  mks.all pureMarkB

/- Well-formed trees: tables hold rows, rows hold at least one
   header/cell, and the table kinds occur nowhere else. -/
mutual
def wfNode : ADFNode → Bool
  | .mk typ content _ mks attrs =>
    baseOKB typ content mks attrs &&
    (if typ = str "table" then wfRows content
     else !(tableKinds.contains typ) && wfNodes content)
def wfNodes : List ADFNode → Bool
  | [] => true
  | n :: ns => wfNode n && wfNodes ns
def wfRows : List ADFNode → Bool
  | [] => true
  | r :: rs => wfRow r && wfRows rs
def wfRow : ADFNode → Bool
  | .mk typ content _ mks attrs =>
    decide (typ = str "tableRow") && baseOKB typ content mks attrs &&
    !content.isEmpty && wfCells content
def wfCells : List ADFNode → Bool
  | [] => true
  | c :: cs => wfCell c && wfCells cs
def wfCell : ADFNode → Bool
  | .mk typ content _ mks attrs =>
    decide (typ = str "tableHeader" ∨ typ = str "tableCell") &&
    baseOKB typ content mks attrs && wfNodes content
end

/- The state invariant protecting addCellContent: whenever the renderer
   believes itself inside a table cell, at least one column counter is
   positive, so the Go cell index is nonnegative. -/
def cellOK (st : RState) : Prop :=
  st.table.inTableCell = true → 0 < st.table.cols + st.table.ccol

theorem openConn_total (typ : Str) (attrs : List (Str × GoVal)) (st : RState)
    (ha : attrsWF attrs = true)
    (hm : typ = str "mention" → mentionAttrsOK attrs = true) :
    ∃ s st', openConn ⟨typ, attrs⟩ st = some (s, st') := by
  unfold openConn
  by_cases h : typ = str "mention"
  · rw [if_pos h]
    obtain ⟨s', hs'⟩ := setOpenTagAttributesForMention_total attrs (hm h)
    simp only [hs', Option.bind_eq_bind, Option.some_bind]
    exact ⟨_, _, rfl⟩
  · rw [if_neg h]
    obtain ⟨s', hs'⟩ := setOpenTagAttributes_total attrs ha
    simp only [hs', Option.bind_eq_bind, Option.some_bind]
    exact ⟨_, _, rfl⟩

theorem openConn_state (typ : Str) (attrs : List (Str × GoVal)) (st : RState)
    (s : Str) (st' : RState)
    (h : openConn ⟨typ, attrs⟩ st = some (s, st')) :
    st' = st ∨ st' = (openBase ⟨typ, attrs⟩ st).2 := by
  unfold openConn at h
  by_cases hm : typ = str "mention"
  · rw [if_pos hm] at h
    cases hx : setOpenTagAttributesForMention attrs with
    | none => rw [hx] at h; cases h
    | some v =>
      rw [hx] at h
      simp only [Option.bind_eq_bind, Option.some_bind, Option.some.injEq,
        Prod.mk.injEq] at h
      exact Or.inl h.2.symm
  · rw [if_neg hm] at h
    cases hx : setOpenTagAttributes attrs with
    | none => rw [hx] at h; cases h
    | some v =>
      rw [hx] at h
      simp only [Option.bind_eq_bind, Option.some_bind, Option.some.injEq,
        Prod.mk.injEq] at h
      exact Or.inr h.2.symm

theorem openBase_cellOK (c : Conn) (st : RState)
    (hrow : ¬c.typ = str "tableRow") (h : cellOK st) :
    cellOK (openBase c st).2 := by
  obtain ⟨typ, attrs⟩ := c
  unfold openBase
  by_cases h1 : typ = str "blockquote"
  · rw [if_pos h1]; exact h
  rw [if_neg h1]
  by_cases h2 : typ = str "codeBlock"
  · rw [if_pos h2]; exact h
  rw [if_neg h2]
  by_cases h3 : typ = str "panel"
  · rw [if_pos h3]; exact h
  rw [if_neg h3]
  by_cases h4 : typ = str "table"
  · rw [if_pos h4]; intro hh; exact h hh
  rw [if_neg h4]
  by_cases h5 : typ = str "media"
  · rw [if_pos h5]; exact h
  rw [if_neg h5]
  by_cases h6 : typ = str "bulletList"
  · rw [if_pos h6]; intro hh; exact h hh
  rw [if_neg h6]
  by_cases h7 : typ = str "orderedList"
  · rw [if_pos h7]; intro hh; exact h hh
  rw [if_neg h7]
  by_cases h8 : typ = str "listItem"
  · rw [if_pos h8]
    by_cases hl : mGetB st.list.ol st.list.depthO = true
    · rw [if_pos hl]; intro hh; exact h hh
    · rw [if_neg hl]; exact h
  rw [if_neg h8]
  by_cases h9 : typ = str "tableHeader"
  · rw [if_pos h9]; intro hh
    show 0 < st.table.cols + 1 + st.table.ccol
    omega
  rw [if_neg h9]
  by_cases h10 : typ = str "tableCell"
  · rw [if_pos h10]; intro hh
    show 0 < st.table.cols + (st.table.ccol + 1)
    omega
  rw [if_neg h10]
  by_cases h11 : typ = str "tableRow"
  · exact absurd h11 hrow
  rw [if_neg h11]
  by_cases h12 : typ = str "hardBreak"
  · rw [if_pos h12]; exact h
  rw [if_neg h12]
  by_cases h13 : typ = str "inlineCard"
  · rw [if_pos h13]; exact h
  rw [if_neg h13]
  by_cases h14 : typ = str "underline"
  · rw [if_pos h14]; exact h
  rw [if_neg h14]
  by_cases h15 : typ = str "strong"
  · rw [if_pos h15]; exact h
  rw [if_neg h15]
  by_cases h16 : typ = str "em"
  · rw [if_pos h16]; exact h
  rw [if_neg h16]
  by_cases h17 : typ = str "code"
  · rw [if_pos h17]; exact h
  rw [if_neg h17]
  by_cases h18 : typ = str "strike"
  · rw [if_pos h18]; exact h
  rw [if_neg h18]
  by_cases h19 : typ = str "link"
  · rw [if_pos h19]; exact h
  rw [if_neg h19]
  exact h

theorem closeConn_cellOK (c : Conn) (st : RState) (h : cellOK st) :
    cellOK (closeConn c st).2 := by
  obtain ⟨typ, attrs⟩ := c
  show cellOK (closeBase ⟨typ, attrs⟩ st).2
  unfold closeBase
  by_cases h1 : typ = str "blockquote"
  · rw [if_pos h1]; exact h
  rw [if_neg h1]
  by_cases h2 : typ = str "codeBlock"
  · rw [if_pos h2]; exact h
  rw [if_neg h2]
  by_cases h3 : typ = str "panel"
  · rw [if_pos h3]; exact h
  rw [if_neg h3]
  by_cases h4 : typ = str "heading"
  · rw [if_pos h4]; exact h
  rw [if_neg h4]
  by_cases h5 : typ = str "bulletList"
  · rw [if_pos h5]; intro hh; exact h hh
  rw [if_neg h5]
  by_cases h6 : typ = str "orderedList"
  · rw [if_pos h6]; intro hh; exact h hh
  rw [if_neg h6]
  by_cases h7 : typ = str "paragraph"
  · rw [if_pos h7]; exact h
  rw [if_neg h7]
  by_cases h8 : typ = str "table"
  · rw [if_pos h8]; intro hh; exact Bool.noConfusion hh
  rw [if_neg h8]
  by_cases h9 : typ = str "tableHeader"
  · rw [if_pos h9]; intro hh; exact Bool.noConfusion hh
  rw [if_neg h9]
  by_cases h10 : typ = str "tableCell"
  · rw [if_pos h10]; intro hh; exact Bool.noConfusion hh
  rw [if_neg h10]
  by_cases h11 : typ = str "tableRow"
  · rw [if_pos h11]; exact h
  rw [if_neg h11]
  by_cases h12 : typ = str "mention"
  · rw [if_pos h12]; exact h
  rw [if_neg h12]
  by_cases h13 : typ = str "emoji"
  · rw [if_pos h13]; exact h
  rw [if_neg h13]
  by_cases h14 : typ = str "underline"
  · rw [if_pos h14]; exact h
  rw [if_neg h14]
  by_cases h15 : typ = str "strong"
  · rw [if_pos h15]; exact h
  rw [if_neg h15]
  by_cases h16 : typ = str "em"
  · rw [if_pos h16]; exact h
  rw [if_neg h16]
  by_cases h17 : typ = str "code"
  · rw [if_pos h17]; exact h
  rw [if_neg h17]
  by_cases h18 : typ = str "strike"
  · rw [if_pos h18]; exact h
  rw [if_neg h18]
  by_cases h19 : typ = str "link"
  · rw [if_pos h19]; exact h
  rw [if_neg h19]
  exact h

theorem addCellContent_total (t : TableSt) (s : Str)
    (hpos : 0 < t.cols + t.ccol) :
    ∃ t', addCellContent t s = some t' ∧ t'.rows = t.rows ∧
      t'.cols = t.cols ∧ t'.ccol = t.ccol ∧ t'.sep = t.sep ∧
      t'.inTable = t.inTable ∧ t'.inTableCell = t.inTableCell := by
  unfold addCellContent
  by_cases h1 : t.rows = 0 ∨ t.content.length < t.rows
  · rw [if_pos h1]
    exact ⟨t, rfl, rfl, rfl, rfl, rfl, rfl, rfl⟩
  · rw [if_neg h1]
    have hneg : ¬((if t.ccol > 0 then (t.ccol : Int) - 1
        else (t.cols : Int) - 1) < 0) := by
      by_cases hc : t.ccol > 0
      · rw [if_pos hc]; omega
      · rw [if_neg hc]; omega
    rw [if_neg hneg]
    exact ⟨_, rfl, rfl, rfl, rfl, rfl, rfl, rfl⟩

theorem addCellOpt_total (st : RState) (s : Str)
    (hpos : 0 < st.table.cols + st.table.ccol) :
    ∃ st', addCellOpt st s = some st' ∧
      st'.table.cols = st.table.cols ∧ st'.table.ccol = st.table.ccol ∧
      st'.table.inTableCell = st.table.inTableCell := by
  obtain ⟨t', ht', _, hc, hcc, _, _, hitc⟩ :=
    addCellContent_total st.table s hpos
  exact ⟨{ st with table := t' }, by simp [addCellOpt, ht'], hc, hcc, hitc⟩

theorem cellMarksOpen_total (mks : List ADFMark) (st : RState)
    (hpure : mks.all pureMarkB = true)
    (hpos : 0 < st.table.cols + st.table.ccol) :
    ∃ st', cellMarksOpen mks st = some st' ∧
      st'.table.cols = st.table.cols ∧ st'.table.ccol = st.table.ccol ∧
      st'.table.inTableCell = st.table.inTableCell := by
  induction mks generalizing st with
  | nil => exact ⟨st, rfl, rfl, rfl, rfl⟩
  | cons m ms ih =>
    simp only [List.all_cons, Bool.and_eq_true] at hpure
    obtain ⟨s1, h1⟩ := openConn_pure_mark m st hpure.1
    obtain ⟨st2, h2, hc2, hcc2, hit2⟩ := addCellOpt_total st s1 hpos
    obtain ⟨st3, h3, hc3, hcc3, hit3⟩ := ih st2 hpure.2 (by omega)
    refine ⟨st3, ?_, by omega, by omega, by rw [hit3, hit2]⟩
    simp only [cellMarksOpen, h1, Option.bind_eq_bind, Option.some_bind,
      h2, h3]

theorem cellMarksClose_total (mks : List ADFMark) (st : RState)
    (hpure : mks.all pureMarkB = true)
    (hpos : 0 < st.table.cols + st.table.ccol) :
    ∃ st', cellMarksClose mks st = some st' ∧
      st'.table.cols = st.table.cols ∧ st'.table.ccol = st.table.ccol ∧
      st'.table.inTableCell = st.table.inTableCell := by
  induction mks generalizing st with
  | nil => exact ⟨st, rfl, rfl, rfl, rfl⟩
  | cons m ms ih =>
    simp only [List.all_cons, Bool.and_eq_true] at hpure
    obtain ⟨s1, h1⟩ := closeConn_pure_mark m st hpure.1
    obtain ⟨st2, h2, hc2, hcc2, hit2⟩ := addCellOpt_total st s1 hpos
    obtain ⟨st3, h3, hc3, hcc3, hit3⟩ := ih st2 hpure.2 (by omega)
    refine ⟨st3, ?_, by omega, by omega, by rw [hit3, hit2]⟩
    simp only [cellMarksClose, h1, Option.bind_eq_bind, Option.some_bind,
      h2, h3]

theorem opened_pure (typ : Str) (mks : List ADFMark)
    (hmks : mks.all pureMarkB = true) :
    (if typ = str "text" then mks else []).all pureMarkB = true := by
  by_cases h : typ = str "text"
  · rw [if_pos h]; exact hmks
  · rw [if_neg h]; rfl

mutual
theorem visitNode_total : ∀ (n : ADFNode) (st : RState),
    wfNode n = true → cellOK st →
    ∃ s st', visitNode n st = some (s, st') ∧ cellOK st'
  | .mk typ content tx mks attrs, st, hwf, hst => by
    simp only [wfNode, Bool.and_eq_true] at hwf
    obtain ⟨hbase, hrest⟩ := hwf
    have hb' := hbase
    simp only [baseOKB, Bool.and_eq_true] at hb'
    obtain ⟨⟨⟨hmedia, hattrs⟩, hment⟩, hmks⟩ := hb'
    have hrow : ¬typ = str "tableRow" := by
      intro hr
      by_cases ht : typ = str "table"
      · rw [hr] at ht; exact absurd ht (by decide)
      · rw [if_neg ht] at hrest
        simp only [Bool.and_eq_true] at hrest
        have h1 := hrest.1
        rw [hr] at h1
        exact absurd h1 (by decide)
    have hguard : ¬((typ = str "mediaGroup" ∨ typ = str "mediaSingle")
        ∧ content.isEmpty = true) := by
      rintro ⟨hm, he⟩
      rw [if_pos hm] at hmedia
      rw [he] at hmedia
      exact absurd hmedia (by decide)
    obtain ⟨so, st1, ho⟩ := openConn_total typ attrs st hattrs
      (fun hm => by rw [if_pos hm] at hment; exact hment)
    have hst1 : cellOK st1 := by
      rcases openConn_state typ attrs st so st1 ho with h | h
      · rw [h]; exact hst
      · rw [h]; exact openBase_cellOK ⟨typ, attrs⟩ st hrow hst
    have hch : ∃ sb st2, visitListNodes content st1 = some (sb, st2) ∧
        cellOK st2 := by
      by_cases ht : typ = str "table"
      · rw [if_pos ht] at hrest
        exact visitRows_total content st1 hrest hst1
      · rw [if_neg ht] at hrest
        simp only [Bool.and_eq_true] at hrest
        exact visitNodes_total content st1 hrest.2 hst1
    obtain ⟨sb, st2, hb, hst2⟩ := hch
    have hop : (if typ = str "text" then mks else []).all pureMarkB = true :=
      opened_pure typ mks hmks
    have hrev : ((if typ = str "text" then mks else []).reverse).all
        pureMarkB = true := by
      rw [List.all_reverse]; exact hop
    by_cases hc : GetADFNodeType typ = str "child"
    · obtain ⟨sm, hm⟩ := openMarks_pure _ st2 hop
      by_cases hic : st2.table.inTableCell = true
      · have hpos : 0 < st2.table.cols + st2.table.ccol := hst2 hic
        obtain ⟨st4, h4, hc4, hcc4, hit4⟩ :=
          cellMarksOpen_total _ st2 hop hpos
        obtain ⟨st5, h5, hc5, hcc5, hit5⟩ :=
          addCellOpt_total st4 (sanitize tx) (by omega)
        obtain ⟨st6, h6, hc6, hcc6, hit6⟩ :=
          cellMarksClose_total _ st5 hrev (by omega)
        apply Exists.intro
        apply Exists.intro
        constructor
        · simp only [visitNode, Option.bind_eq_bind]
          rw [if_neg hguard, ho]
          simp only [Option.some_bind]
          rw [hb]
          simp only [Option.some_bind]
          rw [if_pos hc, hm]
          simp only [Option.some_bind]
          rw [if_pos hic, h4]
          simp only [Option.some_bind]
          rw [h5]
          simp only [Option.some_bind]
          rw [h6]
          simp only [Option.some_bind]
          rfl
        · intro hh; omega
      · obtain ⟨sc, hcm⟩ := closeMarks_pure _ st2 hrev
        apply Exists.intro
        apply Exists.intro
        constructor
        · simp only [visitNode, Option.bind_eq_bind]
          rw [if_neg hguard, ho]
          simp only [Option.some_bind]
          rw [hb]
          simp only [Option.some_bind]
          rw [if_pos hc, hm]
          simp only [Option.some_bind]
          rw [if_neg hic, hcm]
        · exact closeConn_cellOK ⟨typ, attrs⟩ st2 hst2
    · apply Exists.intro
      apply Exists.intro
      constructor
      · simp only [visitNode, Option.bind_eq_bind]
        rw [if_neg hguard, ho]
        simp only [Option.some_bind]
        rw [hb]
        simp only [Option.some_bind]
        rw [if_neg hc]
      · exact closeConn_cellOK ⟨typ, attrs⟩ st2 hst2
theorem visitNodes_total : ∀ (ns : List ADFNode) (st : RState),
    wfNodes ns = true → cellOK st →
    ∃ s st', visitListNodes ns st = some (s, st') ∧ cellOK st'
  | [], st, _, hst => ⟨[], st, rfl, hst⟩
  | n :: ns, st, hwf, hst => by
    simp only [wfNodes, Bool.and_eq_true] at hwf
    obtain ⟨s1, st1, h1, hst1⟩ := visitNode_total n st hwf.1 hst
    obtain ⟨s2, st2, h2, hst2⟩ := visitNodes_total ns st1 hwf.2 hst1
    refine ⟨s1 ++ s2, st2, ?_, hst2⟩
    simp only [visitListNodes, Option.bind_eq_bind]
    rw [h1]
    simp only [Option.some_bind]
    rw [h2]
    simp only [Option.some_bind]
theorem visitRows_total : ∀ (rs : List ADFNode) (st : RState),
    wfRows rs = true → cellOK st →
    ∃ s st', visitListNodes rs st = some (s, st') ∧ cellOK st'
  | [], st, _, hst => ⟨[], st, rfl, hst⟩
  | r :: rs, st, hwf, hst => by
    simp only [wfRows, Bool.and_eq_true] at hwf
    obtain ⟨s1, st1, h1, hst1⟩ := visitRow_total r st hwf.1
    obtain ⟨s2, st2, h2, hst2⟩ := visitRows_total rs st1 hwf.2 hst1
    refine ⟨s1 ++ s2, st2, ?_, hst2⟩
    simp only [visitListNodes, Option.bind_eq_bind]
    rw [h1]
    simp only [Option.some_bind]
    rw [h2]
    simp only [Option.some_bind]
theorem visitCells_total : ∀ (cs : List ADFNode) (st : RState),
    wfCells cs = true → cellOK st →
    ∃ s st', visitListNodes cs st = some (s, st') ∧ cellOK st'
  | [], st, _, hst => ⟨[], st, rfl, hst⟩
  | c :: cs, st, hwf, hst => by
    simp only [wfCells, Bool.and_eq_true] at hwf
    obtain ⟨s1, st1, h1, hst1⟩ := visitCell_total c st hwf.1
    obtain ⟨s2, st2, h2, hst2⟩ := visitCells_total cs st1 hwf.2 hst1
    refine ⟨s1 ++ s2, st2, ?_, hst2⟩
    simp only [visitListNodes, Option.bind_eq_bind]
    rw [h1]
    simp only [Option.some_bind]
    rw [h2]
    simp only [Option.some_bind]
theorem visitRow_total : ∀ (r : ADFNode) (st : RState), wfRow r = true →
    ∃ s st', visitNode r st = some (s, st') ∧ cellOK st'
  | .mk typ content tx mks attrs, st, hwf => by
    simp only [wfRow, Bool.and_eq_true, decide_eq_true_eq] at hwf
    obtain ⟨⟨⟨htyp, hbase⟩, hne⟩, hcells⟩ := hwf
    subst htyp
    simp only [baseOKB, Bool.and_eq_true] at hbase
    obtain ⟨⟨⟨hmedia, hattrs⟩, hment⟩, hmks⟩ := hbase
    obtain ⟨so, st1, ho⟩ := openConn_total (str "tableRow") attrs st hattrs
      (fun hm => absurd hm (by decide))
    cases content with
    | nil => exact absurd hne (by decide)
    | cons c cs =>
      simp only [wfCells, Bool.and_eq_true] at hcells
      obtain ⟨s1, stA, h1, hstA⟩ := visitCell_total c st1 hcells.1
      obtain ⟨s2, stB, h2, hstB⟩ := visitCells_total cs stA hcells.2 hstA
      have hguard : ¬((str "tableRow" = str "mediaGroup" ∨
          str "tableRow" = str "mediaSingle")
          ∧ (c :: cs : List ADFNode).isEmpty = true) := by
        rintro ⟨hm, _⟩
        rcases hm with hm | hm <;> exact absurd hm (by decide)
      by_cases hic : stB.table.inTableCell = true
      · have hpos : 0 < stB.table.cols + stB.table.ccol := hstB hic
        obtain ⟨st5, h5, hc5, hcc5, hit5⟩ :=
          addCellOpt_total stB (sanitize tx) hpos
        apply Exists.intro
        apply Exists.intro
        constructor
        · simp only [visitNode, visitListNodes, Option.bind_eq_bind]
          rw [if_neg hguard, ho]
          simp only [Option.some_bind]
          rw [h1]
          simp only [Option.some_bind]
          rw [h2]
          simp only [Option.some_bind]
          rw [if_pos (by decide : GetADFNodeType (str "tableRow") =
            str "child")]
          rw [if_neg (by decide : ¬(str "tableRow" : Str) = str "text")]
          simp only [openMarks, Option.some_bind]
          rw [if_pos hic]
          simp only [cellMarksOpen, Option.some_bind]
          rw [h5]
          simp only [Option.some_bind, List.reverse_nil, cellMarksClose]
          rfl
        · intro hh; omega
      · apply Exists.intro
        apply Exists.intro
        constructor
        · simp only [visitNode, visitListNodes, Option.bind_eq_bind]
          rw [if_neg hguard, ho]
          simp only [Option.some_bind]
          rw [h1]
          simp only [Option.some_bind]
          rw [h2]
          simp only [Option.some_bind]
          rw [if_pos (by decide : GetADFNodeType (str "tableRow") =
            str "child")]
          rw [if_neg (by decide : ¬(str "tableRow" : Str) = str "text")]
          simp only [openMarks, Option.some_bind]
          rw [if_neg hic]
        · exact closeConn_cellOK ⟨str "tableRow", attrs⟩ stB hstB
theorem visitCell_total : ∀ (c : ADFNode) (st : RState), wfCell c = true →
    ∃ s st', visitNode c st = some (s, st') ∧ cellOK st'
  | .mk typ content tx mks attrs, st, hwf => by
    simp only [wfCell, Bool.and_eq_true, decide_eq_true_eq] at hwf
    obtain ⟨⟨htyp, hbase⟩, hns⟩ := hwf
    simp only [baseOKB, Bool.and_eq_true] at hbase
    obtain ⟨⟨⟨hmedia, hattrs⟩, hment⟩, hmks⟩ := hbase
    obtain ⟨sa, hsa⟩ := setOpenTagAttributes_total attrs hattrs
    rcases htyp with htyp | htyp
    · subst htyp
      have ho : openConn ⟨str "tableHeader", attrs⟩ st =
          (setOpenTagAttributes attrs).bind (fun a =>
            some ((openBase ⟨str "tableHeader", attrs⟩ st).1 ++ a,
              { st with table := { st.table with
                  cols := st.table.cols + 1, inTableCell := true } })) := rfl
      have hst1 : cellOK ({ st with table := { st.table with
          cols := st.table.cols + 1, inTableCell := true } }) := by
        intro _
        show 0 < st.table.cols + 1 + st.table.ccol
        omega
      obtain ⟨sb, st2, hb, hst2⟩ := visitNodes_total content
        ({ st with table := { st.table with
            cols := st.table.cols + 1, inTableCell := true } }) hns hst1
      have hguard : ¬((str "tableHeader" = str "mediaGroup" ∨
          str "tableHeader" = str "mediaSingle")
          ∧ content.isEmpty = true) := by
        rintro ⟨hm, _⟩
        rcases hm with hm | hm <;> exact absurd hm (by decide)
      by_cases hic : st2.table.inTableCell = true
      · have hpos : 0 < st2.table.cols + st2.table.ccol := hst2 hic
        obtain ⟨st5, h5, hc5, hcc5, hit5⟩ :=
          addCellOpt_total st2 (sanitize tx) hpos
        apply Exists.intro
        apply Exists.intro
        constructor
        · simp only [visitNode, Option.bind_eq_bind]
          rw [if_neg hguard, ho, hsa]
          simp only [Option.some_bind]
          rw [hb]
          simp only [Option.some_bind]
          rw [if_pos (by decide : GetADFNodeType (str "tableHeader") =
            str "child")]
          rw [if_neg (by decide : ¬(str "tableHeader" : Str) = str "text")]
          simp only [openMarks, Option.some_bind]
          rw [if_pos hic]
          simp only [cellMarksOpen, Option.some_bind]
          rw [h5]
          simp only [Option.some_bind, List.reverse_nil, cellMarksClose]
          rfl
        · intro hh; omega
      · apply Exists.intro
        apply Exists.intro
        constructor
        · simp only [visitNode, Option.bind_eq_bind]
          rw [if_neg hguard, ho, hsa]
          simp only [Option.some_bind]
          rw [hb]
          simp only [Option.some_bind]
          rw [if_pos (by decide : GetADFNodeType (str "tableHeader") =
            str "child")]
          rw [if_neg (by decide : ¬(str "tableHeader" : Str) = str "text")]
          simp only [openMarks, Option.some_bind]
          rw [if_neg hic]
        · exact closeConn_cellOK ⟨str "tableHeader", attrs⟩ st2 hst2
    · subst htyp
      have ho : openConn ⟨str "tableCell", attrs⟩ st =
          (setOpenTagAttributes attrs).bind (fun a =>
            some ((openBase ⟨str "tableCell", attrs⟩ st).1 ++ a,
              { st with table := { st.table with
                  ccol := st.table.ccol + 1, inTableCell := true } })) := rfl
      have hst1 : cellOK ({ st with table := { st.table with
          ccol := st.table.ccol + 1, inTableCell := true } }) := by
        intro _
        show 0 < st.table.cols + (st.table.ccol + 1)
        omega
      obtain ⟨sb, st2, hb, hst2⟩ := visitNodes_total content
        ({ st with table := { st.table with
            ccol := st.table.ccol + 1, inTableCell := true } }) hns hst1
      have hguard : ¬((str "tableCell" = str "mediaGroup" ∨
          str "tableCell" = str "mediaSingle")
          ∧ content.isEmpty = true) := by
        rintro ⟨hm, _⟩
        rcases hm with hm | hm <;> exact absurd hm (by decide)
      by_cases hic : st2.table.inTableCell = true
      · have hpos : 0 < st2.table.cols + st2.table.ccol := hst2 hic
        obtain ⟨st5, h5, hc5, hcc5, hit5⟩ :=
          addCellOpt_total st2 (sanitize tx) hpos
        apply Exists.intro
        apply Exists.intro
        constructor
        · simp only [visitNode, Option.bind_eq_bind]
          rw [if_neg hguard, ho, hsa]
          simp only [Option.some_bind]
          rw [hb]
          simp only [Option.some_bind]
          rw [if_pos (by decide : GetADFNodeType (str "tableCell") =
            str "child")]
          rw [if_neg (by decide : ¬(str "tableCell" : Str) = str "text")]
          simp only [openMarks, Option.some_bind]
          rw [if_pos hic]
          simp only [cellMarksOpen, Option.some_bind]
          rw [h5]
          simp only [Option.some_bind, List.reverse_nil, cellMarksClose]
          rfl
        · intro hh; omega
      · apply Exists.intro
        apply Exists.intro
        constructor
        · simp only [visitNode, Option.bind_eq_bind]
          rw [if_neg hguard, ho, hsa]
          simp only [Option.some_bind]
          rw [hb]
          simp only [Option.some_bind]
          rw [if_pos (by decide : GetADFNodeType (str "tableCell") =
            str "child")]
          rw [if_neg (by decide : ¬(str "tableCell" : Str) = str "text")]
          simp only [openMarks, Option.some_bind]
          rw [if_neg hic]
        · exact closeConn_cellOK ⟨str "tableCell", attrs⟩ st2 hst2
end

/- The kinds for which Open/Close have an explicit rendering rule; any
   other kind falls through every switch to the empty string. -/
def ruleKinds : List Str :=
  [str "blockquote", str "codeBlock", str "panel", str "table", str "media",
   str "bulletList", str "orderedList", str "listItem", str "tableHeader",
   str "tableCell", str "tableRow", str "hardBreak", str "inlineCard",
   str "underline", str "strong", str "em", str "code", str "strike",
   str "link", str "heading", str "paragraph", str "mention", str "emoji"]

/-- C2 counterexample: the renderer reads `Content[0]` of every media
group before anything else, so a childless mediaGroup node — a tree of
vocabulary nodes with arbitrary (empty) content — makes Translate panic
rather than return a string. -/
theorem c2_counterexample :
    translateDoc (ADFNode.mk (str "doc")
      [ADFNode.mk (str "mediaGroup") [] [] [] []] [] [] []) = none := rfl

/-- C2 (amended): the renderer returns some string on every well-formed
tree — media groups nonempty, "level" attributes floats, mention ids and
texts strings, marks from the mark vocabulary, and table rows/cells
nested as a table requires — and a node kind with no rendering rule
opens and closes as the empty string, leaving the state untouched. -/
theorem c2_renderer_total :
    (∀ d : ADFNode, wfNodes d.content = true →
      ∃ s, translateDoc d = some s) ∧
    (∀ (typ : Str) (st : RState), (!(ruleKinds.contains typ)) = true →
      openConn ⟨typ, []⟩ st = some ([], st) ∧
      closeConn ⟨typ, []⟩ st = ([], st)) := by
  constructor
  · intro d h
    have hcell : cellOK st0 := by
      intro hh
      exact absurd hh (by decide)
    obtain ⟨s, st', hv, _⟩ := visitNodes_total d.content st0 h hcell
    refine ⟨s, ?_⟩
    simp only [translateDoc, Option.bind_eq_bind]
    rw [hv]
    rfl
  · intro typ st hk
    have hmem : ¬typ ∈ ruleKinds := by
      intro hm
      have hc : ruleKinds.contains typ = true := (List.elem_iff).2 hm
      rw [hc] at hk
      exact absurd hk (by decide)
    have hne : ∀ s, s ∈ ruleKinds → ¬typ = s := fun s hs he => hmem (he ▸ hs)
    constructor
    · unfold openConn
      rw [if_neg (hne (str "mention") (by decide))]
      unfold openBase
      rw [if_neg (hne (str "blockquote") (by decide))]
      rw [if_neg (hne (str "codeBlock") (by decide))]
      rw [if_neg (hne (str "panel") (by decide))]
      rw [if_neg (hne (str "table") (by decide))]
      rw [if_neg (hne (str "media") (by decide))]
      rw [if_neg (hne (str "bulletList") (by decide))]
      rw [if_neg (hne (str "orderedList") (by decide))]
      rw [if_neg (hne (str "listItem") (by decide))]
      rw [if_neg (hne (str "tableHeader") (by decide))]
      rw [if_neg (hne (str "tableCell") (by decide))]
      rw [if_neg (hne (str "tableRow") (by decide))]
      rw [if_neg (hne (str "hardBreak") (by decide))]
      rw [if_neg (hne (str "inlineCard") (by decide))]
      rw [if_neg (hne (str "underline") (by decide))]
      rw [if_neg (hne (str "strong") (by decide))]
      rw [if_neg (hne (str "em") (by decide))]
      rw [if_neg (hne (str "code") (by decide))]
      rw [if_neg (hne (str "strike") (by decide))]
      rw [if_neg (hne (str "link") (by decide))]
      rfl
    · unfold closeConn closeBase
      rw [if_neg (hne (str "blockquote") (by decide))]
      rw [if_neg (hne (str "codeBlock") (by decide))]
      rw [if_neg (hne (str "panel") (by decide))]
      rw [if_neg (hne (str "heading") (by decide))]
      rw [if_neg (hne (str "bulletList") (by decide))]
      rw [if_neg (hne (str "orderedList") (by decide))]
      rw [if_neg (hne (str "paragraph") (by decide))]
      rw [if_neg (hne (str "table") (by decide))]
      rw [if_neg (hne (str "tableHeader") (by decide))]
      rw [if_neg (hne (str "tableCell") (by decide))]
      rw [if_neg (hne (str "tableRow") (by decide))]
      rw [if_neg (hne (str "mention") (by decide))]
      rw [if_neg (hne (str "emoji") (by decide))]
      rw [if_neg (hne (str "underline") (by decide))]
      rw [if_neg (hne (str "strong") (by decide))]
      rw [if_neg (hne (str "em") (by decide))]
      rw [if_neg (hne (str "code") (by decide))]
      rw [if_neg (hne (str "strike") (by decide))]
      rw [if_neg (hne (str "link") (by decide))]
      rfl

/- *************************  claim C1: literal runs  ************************* -/

/- Claim-side notion: the runs occur inside s, in order and disjointly. -/
inductive RunsIn : List Str → Str → Prop
  | nil (s : Str) : RunsIn [] s
  | cons (pre r : Str) (rs : List Str) (suf : Str) :
      RunsIn rs suf → RunsIn (r :: rs) (pre ++ (r ++ suf))

theorem runsIn_left (t : Str) {rs : List Str} {s : Str} (h : RunsIn rs s) :
    RunsIn rs (t ++ s) := by
  induction h with
  | nil s => exact .nil _
  | cons pre r rs suf h ih =>
    have h2 := RunsIn.cons (t ++ pre) r rs suf h
    rwa [List.append_assoc] at h2

theorem runsIn_right {rs : List Str} {s : Str} (h : RunsIn rs s) (t : Str) :
    RunsIn rs (s ++ t) := by
  induction h with
  | nil s => exact .nil _
  | cons pre r rs suf h ih =>
    simpa [List.append_assoc] using RunsIn.cons pre r rs (suf ++ t) ih

theorem runsIn_append {rs1 : List Str} {s1 : Str} {rs2 : List Str} {s2 : Str}
    (h1 : RunsIn rs1 s1) (h2 : RunsIn rs2 s2) :
    RunsIn (rs1 ++ rs2) (s1 ++ s2) := by
  induction h1 with
  | nil s => exact runsIn_left s h2
  | cons pre r rs suf h ih =>
    simpa [List.append_assoc] using RunsIn.cons pre r (rs ++ rs2) (suf ++ s2) ih

theorem runsIn_chars {rs : List Str} {s : Str} (h : RunsIn rs s) :
    ∀ r ∈ rs, ∀ c ∈ r, c ∈ s := by
  induction h with
  | nil s =>
    intro r hr
    cases hr
  | cons pre r rs suf h ih =>
    intro r' hr' c hc
    simp only [List.mem_cons] at hr'
    rcases hr' with rfl | hr'
    · exact List.mem_append.2 (Or.inr (List.mem_append.2 (Or.inl hc)))
    · exact List.mem_append.2 (Or.inr (List.mem_append.2
        (Or.inr (ih r' hr' c hc))))

/- The nodes the builder emits for plain (mention-, link-, media- and
   emphasis-free) inline content: bare text nodes. -/
def isPlainText : ADFNode → Bool
  | .mk t c _ m a =>
    decide (t = str "text") && c.isEmpty && m.isEmpty && a.isEmpty

theorem visitNode_text_runs (tx : Str) :
    ∃ out, visitNode (.mk (str "text") [] tx [] []) st0 = some (out, st0) ∧
      RunsIn [sanitize tx] out := by
  refine ⟨(sanitize tx ++ []) ++ [], rfl, ?_⟩
  simpa using RunsIn.cons [] (sanitize tx) [] [] (.nil [])

theorem visitListNodes_plain_runs (ns : List ADFNode)
    (h : ns.all isPlainText = true) :
    ∃ out, visitListNodes ns st0 = some (out, st0) ∧
      RunsIn (ns.map (fun n => sanitize n.text)) out := by
  induction ns with
  | nil => exact ⟨[], rfl, .nil []⟩
  | cons n ns ih =>
    simp only [List.all_cons, Bool.and_eq_true] at h
    obtain ⟨out2, h2, hr2⟩ := ih h.2
    obtain ⟨t, c, tx, m, a⟩ := n
    have h1 := h.1
    simp only [isPlainText, Bool.and_eq_true, decide_eq_true_eq,
      List.isEmpty_iff] at h1
    obtain ⟨⟨⟨ht, hc⟩, hm⟩, ha⟩ := h1
    subst ht hc hm ha
    obtain ⟨out1, hv1, hr1⟩ := visitNode_text_runs tx
    refine ⟨out1 ++ out2, ?_, ?_⟩
    · simp only [visitListNodes, Option.bind_eq_bind]
      rw [hv1]
      simp only [Option.some_bind]
      rw [h2]
      rfl
    · exact runsIn_append hr1 hr2

theorem visitNode_paragraph_runs (ns : List ADFNode)
    (h : ns.all isPlainText = true) :
    ∃ out, visitNode (.mk (str "paragraph") ns [] [] []) st0
        = some (out, st0) ∧
      RunsIn (ns.map (fun n => sanitize n.text)) out := by
  obtain ⟨outc, hc, hr⟩ := visitListNodes_plain_runs ns h
  have hguard : ¬((str "paragraph" = str "mediaGroup" ∨
      str "paragraph" = str "mediaSingle") ∧ ns.isEmpty = true) := by
    rintro ⟨hm, _⟩
    rcases hm with hm | hm <;> exact absurd hm (by decide)
  refine ⟨outc ++ str "\n\n", ?_, ?_⟩
  · simp only [visitNode, Option.bind_eq_bind]
    rw [if_neg hguard]
    rw [show openConn ⟨str "paragraph", []⟩ st0 = some ([], st0) from rfl]
    simp only [Option.some_bind]
    rw [hc]
    simp only [Option.some_bind]
    rw [if_neg (by decide : ¬GetADFNodeType (str "paragraph") = str "child")]
    rfl
  · exact runsIn_right hr (str "\n\n")

theorem visitNode_codeBlock_runs (cnt : List ADFNode)
    (cattrs : List (Str × GoVal)) (hcnt : cnt.all isPlainText = true)
    (ha : attrsWF cattrs = true) :
    ∃ out, visitNode (.mk (str "codeBlock") cnt [] [] cattrs) st0
        = some (out, st0) ∧
      RunsIn (cnt.map (fun n => sanitize n.text)) out := by
  obtain ⟨sa, hsa⟩ := setOpenTagAttributes_total cattrs ha
  obtain ⟨outc, hc, hrc⟩ := visitListNodes_plain_runs cnt hcnt
  have hguard : ¬((str "codeBlock" = str "mediaGroup" ∨
      str "codeBlock" = str "mediaSingle") ∧ cnt.isEmpty = true) := by
    rintro ⟨hm, _⟩
    rcases hm with hm | hm <;> exact absurd hm (by decide)
  have ho : openConn ⟨str "codeBlock", cattrs⟩ st0 =
      (setOpenTagAttributes cattrs).bind (fun a =>
        some ((openBase ⟨str "codeBlock", cattrs⟩ st0).1 ++ a, st0)) := rfl
  refine ⟨((openBase ⟨str "codeBlock", cattrs⟩ st0).1 ++ sa) ++ outc
      ++ (closeConn ⟨str "codeBlock", cattrs⟩ st0).1, ?_, ?_⟩
  · simp only [visitNode, Option.bind_eq_bind]
    rw [if_neg hguard, ho, hsa]
    simp only [Option.some_bind]
    rw [hc]
    simp only [Option.some_bind]
    rw [if_neg (by decide : ¬GetADFNodeType (str "codeBlock") = str "child")]
    rfl
  · exact runsIn_right (runsIn_left _ hrc) _

/- Inline kinds with their own conversion rule; anything else falls to the
   literal-text default of processInlineTreeWithGaps. -/
def recognizedInline : List Str :=
  [str "people_mention", str "code_span", str "inline_link"]
    ++ emphasisFamily

def plainINode (i : INode) : Bool := !(recognizedInline.contains i.kind)

def plainInline (c : CstNode) : Bool :=
  decide (c.kind = str "inline") &&
    (match c.itree with
     | none => true
     | some ins => ins.all plainINode)

/- The input universe of the claim: paragraphs of plain inline text and
   fenced code blocks — no mentions, links, or media. -/
def ParaWF (b : CstNode) : Bool :=
  decide (b.kind = str "paragraph") && b.children.all plainInline

def CbWF (b : CstNode) : Bool := decide (b.kind = str "fenced_code_block")

def goodBlock (b : CstNode) : Bool := ParaWF b || CbWF b

/- The literal runs the builder extracts from a block: the text fields of
   the built node's children. -/
def nodeRuns (n : ADFNode) : List Str := n.content.map ADFNode.text

def blockRuns (cfg : BuildCfg) (b : CstNode) : List Str :=
  (processNode cfg b).flatMap nodeRuns

theorem textIf_plain (t : Str) :
    ((if (goTrimSpace t).isEmpty = true then []
      else [NewTextNode t]).all isPlainText) = true := by
  split_ifs <;> rfl

theorem processInlineChild_plain (cfg : BuildCfg) (c : INode) (buf : Str)
    (h : plainINode c = true) :
    (processInlineChild cfg c buf).all isPlainText = true := by
  obtain ⟨k, s, e, cs⟩ := c
  simp only [plainINode, INode.kind] at h
  have hmem : ¬k ∈ recognizedInline := by
    intro hm
    have hc : recognizedInline.contains k = true := (List.elem_iff).2 hm
    rw [hc] at h
    exact absurd h (by decide)
  have hne : ∀ x, x ∈ recognizedInline → ¬k = x := fun x hx he => hmem (he ▸ hx)
  have hf : ¬emphasisFamily.contains k = true := by
    intro hcc
    exact hmem (List.mem_append.2 (Or.inr ((List.elem_iff).1 hcc)))
  unfold processInlineChild
  simp only [INode.kind, INode.start, INode.stop]
  rw [if_neg (hne (str "people_mention") (by decide))]
  rw [if_neg (hne (str "code_span") (by decide))]
  rw [if_neg (hne (str "inline_link") (by decide))]
  rw [if_neg hf]
  exact textIf_plain _

theorem processGaps_plain (cfg : BuildCfg) :
    ∀ (ins : List INode) (pos : Nat) (buf : Str),
      ins.all plainINode = true →
      (processGaps cfg ins pos buf).all isPlainText = true := by
  intro ins
  induction ins with
  | nil =>
    intro pos buf _
    unfold processGaps
    split_ifs with h1
    · exact textIf_plain _
    · rfl
  | cons c cs ih =>
    intro pos buf h
    simp only [List.all_cons, Bool.and_eq_true] at h
    unfold processGaps
    simp only [List.all_append, Bool.and_eq_true]
    refine ⟨⟨?_, processInlineChild_plain cfg c buf h.1⟩, ih _ _ h.2⟩
    split_ifs <;> rfl

theorem processInlineContent_plain (cfg : BuildCfg) (c : CstNode)
    (h : plainInline c = true) :
    (processInlineContent cfg c).all isPlainText = true := by
  obtain ⟨k, t, ch, it⟩ := c
  cases it with
  | none => exact textIf_plain t
  | some ins =>
    simp only [plainInline, Bool.and_eq_true, decide_eq_true_eq,
      CstNode.kind, CstNode.itree] at h
    exact processGaps_plain cfg ins 0 t h.2

theorem paragraphContent_plain (cfg : BuildCfg) :
    ∀ (cs : List CstNode), cs.all plainInline = true →
      (paragraphContent cfg cs).all isPlainText = true := by
  intro cs
  induction cs with
  | nil => intro _; rfl
  | cons c cs ih =>
    intro h
    simp only [List.all_cons, Bool.and_eq_true] at h
    unfold paragraphContent
    simp only [List.all_append, Bool.and_eq_true]
    refine ⟨?_, ih h.2⟩
    have hk : c.kind = str "inline" := by
      have := h.1
      simp only [plainInline, Bool.and_eq_true, decide_eq_true_eq] at this
      exact this.1
    rw [if_pos hk]
    exact processInlineContent_plain cfg c h.1

theorem blockNode_runs (cfg : BuildCfg) (b : CstNode)
    (h : goodBlock b = true) :
    ∃ node out, processNode cfg b = [node] ∧
      visitNode node st0 = some (out, st0) ∧
      RunsIn ((blockRuns cfg b).map sanitize) out := by
  obtain ⟨k, t, ch, it⟩ := b
  simp only [goodBlock, Bool.or_eq_true] at h
  rcases h with h | h
  · simp only [ParaWF, Bool.and_eq_true, decide_eq_true_eq,
      CstNode.kind, CstNode.children] at h
    obtain ⟨hk, hch⟩ := h
    subst hk
    have hplain := paragraphContent_plain cfg ch hch
    obtain ⟨out, hv, hr⟩ := visitNode_paragraph_runs _ hplain
    have hpn : processNode cfg (.mk (str "paragraph") t ch it)
        = [.mk (str "paragraph") (paragraphContent cfg ch) [] [] []] := rfl
    refine ⟨_, out, hpn, hv, ?_⟩
    simpa [blockRuns, hpn, nodeRuns, ADFNode.content, List.map_map,
      Function.comp] using hr
  · simp only [CbWF, decide_eq_true_eq, CstNode.kind] at h
    subst h
    have hpn : processNode cfg (.mk (str "fenced_code_block") t ch it)
        = [ADFNode.mk (str "codeBlock")
            (if (codeBlockInfo ch).2.isEmpty = true then []
             else [NewTextNode (codeBlockInfo ch).2]) [] []
            (if (codeBlockInfo ch).1.isEmpty = true then []
             else [(str "language", .vStr (codeBlockInfo ch).1)])] := rfl
    have hcnt : (if (codeBlockInfo ch).2.isEmpty = true then []
        else [NewTextNode (codeBlockInfo ch).2]).all isPlainText = true := by
      split_ifs <;> rfl
    have hattrs : attrsWF (if (codeBlockInfo ch).1.isEmpty = true then []
        else [(str "language", .vStr (codeBlockInfo ch).1)]) = true := by
      split_ifs <;> rfl
    obtain ⟨out, hv, hr⟩ := visitNode_codeBlock_runs _ _ hcnt hattrs
    refine ⟨_, out, hpn, hv, ?_⟩
    simpa [blockRuns, hpn, nodeRuns, ADFNode.content, List.map_map,
      Function.comp] using hr

theorem goodBlocks_runs (cfg : BuildCfg) :
    ∀ (bs : List CstNode), bs.all goodBlock = true →
      ∃ out, visitListNodes (processChildren cfg bs) st0 = some (out, st0) ∧
        RunsIn ((bs.flatMap (blockRuns cfg)).map sanitize) out := by
  intro bs
  induction bs with
  | nil => exact fun _ => ⟨[], rfl, .nil []⟩
  | cons b bs ih =>
    intro h
    simp only [List.all_cons, Bool.and_eq_true] at h
    obtain ⟨node, out1, hpn, hv, hr1⟩ := blockNode_runs cfg b h.1
    obtain ⟨out2, h2, hr2⟩ := ih h.2
    refine ⟨out1 ++ out2, ?_, ?_⟩
    · show visitListNodes (processNode cfg b ++ processChildren cfg bs) st0
        = some (out1 ++ out2, st0)
      rw [hpn]
      show (visitNode node st0).bind _ = some (out1 ++ out2, st0)
      rw [hv]
      simp only [Option.some_bind]
      show (visitListNodes (processChildren cfg bs) st0).bind
        (fun r2 => some (out1 ++ r2.1, r2.2)) = some (out1 ++ out2, st0)
      rw [h2]
      rfl
    · simp only [List.flatMap_cons, List.map_append]
      exact runsIn_append hr1 hr2

/- The CST of the single-paragraph input `a < b`: one section-level
   paragraph whose inline node has no recognized inline children. -/
def c1Cst : CstNode :=
  .mk (str "document") (str "a < b")
    [.mk (str "paragraph") (str "a < b")
      [.mk (str "inline") (str "a < b") [] none] none] none

/-- C1 counterexample: the input `a < b` contains the single literal run
"a < b", but the rendered round trip replaces its '<' by '❬', so the run
does not reappear unchanged — no character '<' survives sanitize. -/
theorem c1_counterexample :
    translateDoc (wrapDoc (translateToADF emptyCfg c1Cst))
      = some (str "a ❬ b\n\n") ∧
    ¬ RunsIn [str "a < b"] (str "a ❬ b\n\n") := by
  constructor
  · decide
  · intro h
    have hm := runsIn_chars h (str "a < b") (by decide) '<' (by decide)
    exact absurd hm (by decide)

/-- C1 (amended): for documents of paragraphs of plain inline text and
fenced code blocks — no mentions, links, or media — rendering the built
tree reproduces, in order and disjointly, every literal run the builder
extracts from the input, each modulo sanitize (trailing newlines trimmed
and '<', '>' replaced by '❬', '❭'); block boundaries contribute only the
surrounding whitespace and fence text. -/
theorem c1_literal_runs (cfg : BuildCfg) (tx : Str) (bs : List CstNode)
    (h : bs.all goodBlock = true) :
    ∃ out, translateDoc (wrapDoc (translateToADF cfg
        (.mk (str "document") tx bs none))) = some out ∧
      RunsIn ((bs.flatMap (blockRuns cfg)).map sanitize) out := by
  obtain ⟨out, hv, hr⟩ := goodBlocks_runs cfg bs h
  refine ⟨out, ?_, hr⟩
  show (visitListNodes (processChildren cfg bs) st0).bind
    (fun r => some r.1) = some out
  rw [hv]
  rfl

/-- C1 witness: the amended theorem at the concrete two-block document
`hi` / ```a``` — the sanitized runs "hi" and "a" occur in the output. -/
theorem c1_literal_runs_witness :
    ([CstNode.mk (str "paragraph") (str "hi")
        [.mk (str "inline") (str "hi") [] none] none,
      CstNode.mk (str "fenced_code_block") (str "```\na\n```")
        [.mk (str "code_fence_content") (str "a\n") [] none]
        none].all goodBlock = true) ∧
    ∃ out, translateDoc (wrapDoc (translateToADF emptyCfg
        (.mk (str "document") []
          [CstNode.mk (str "paragraph") (str "hi")
            [.mk (str "inline") (str "hi") [] none] none,
           CstNode.mk (str "fenced_code_block") (str "```\na\n```")
            [.mk (str "code_fence_content") (str "a\n") [] none]
            none] none))) = some out ∧
      RunsIn (([CstNode.mk (str "paragraph") (str "hi")
          [.mk (str "inline") (str "hi") [] none] none,
        CstNode.mk (str "fenced_code_block") (str "```\na\n```")
          [.mk (str "code_fence_content") (str "a\n") [] none]
          none].flatMap (blockRuns emptyCfg)).map sanitize) out :=
  ⟨by decide, c1_literal_runs emptyCfg [] _ (by decide)⟩

/-- C2 witness: a concrete well-formed document renders to some string,
and the unrecognized kind "rule" opens as the empty string. -/
theorem c2_renderer_total_witness :
    (wfNodes ((ADFNode.mk (str "doc")
        [ADFNode.mk (str "paragraph")
          [ADFNode.mk (str "text") [] (str "hi") [] []] [] [] []]
        [] [] []).content) = true ∧
      ∃ s, translateDoc (ADFNode.mk (str "doc")
        [ADFNode.mk (str "paragraph")
          [ADFNode.mk (str "text") [] (str "hi") [] []] [] [] []]
        [] [] []) = some s) ∧
    ((!(ruleKinds.contains (str "rule"))) = true ∧
      openConn ⟨str "rule", []⟩ st0 = some ([], st0)) :=
  ⟨⟨by decide, c2_renderer_total.1 _ (by decide)⟩,
   ⟨by decide, (c2_renderer_total.2 (str "rule") st0 (by decide)).1⟩⟩

end MdAdf
